import Mathlib

/-!
Verification of the NBOS core kernel runtime against its design specification.

Each kernel subsystem touched by the specification claims is given a shallow
embedding: pure fragments of the C sources become Lean functions, mutable
kernel state becomes explicit state records, and 64-bit machine arithmetic is
modelled on `Nat` with explicit reductions modulo `2 ^ 64` wherever the C code
can wrap.  Pointer-typed state (block chains, VFS trees, registries) is
modelled by arenas of identifiers / position-indexed lists; a C pointer to a
heap block is represented by the block's arena address, computed from the
block layout.  Reads through dangling or corrupted pointers are undefined at
the C level; the embedding treats such lookups as misses, and each theorem's
hypotheses confine it to states where the embedding and the machine agree.
-/

namespace NBOS

/-- `2 ^ 64`, the modulus of C `uint64_t` arithmetic (kept as a numeral so
that it reduces without unfolding power instances). -/
def U64 : Nat := 18446744073709551616

theorem U64_eq : U64 = 2 ^ 64 := by norm_num [U64]

/-- Wrapping subtraction on C `uint64_t` values.  (The complement summand is
placed first so that reduction stalls on symbolic arguments instead of
descending through the 2^64 literal.) -/
def sub64 (a b : Nat) : Nat := ((U64 - b % U64) + a % U64) % U64

/-! ## Heap allocator, from src/kernel/heap.c -/

namespace Heap

def HEAP_START : Nat := 0x400000
def HEAP_SIZE : Nat := 0x1000000
def HEADER_SIZE : Nat := 32
def MIN_BLOCK_SIZE : Nat := 32

/-- One `BlockHeader` plus its payload.  The `magic` field is not modelled:
a block is valid exactly when it is present in the chain, and `kfree` of an
address that is not a live header is treated as the C magic-check miss.
`data i` is the i-th payload byte. -/
structure Block where
  free : Bool
  size : Nat
  data : Nat → Nat

def defaultBlock : Block := ⟨false, 0, fun _ => 0⟩

/-- Bytes occupied by a block: header plus payload. -/
def blockSpan (b : Block) : Nat := HEADER_SIZE + b.size

def spanSum (bs : List Block) : Nat := (bs.map blockSpan).sum

/-- Address of the header of block `k` in the chain. -/
def headerAddr (bs : List Block) (k : Nat) : Nat := HEAP_START + spanSum (bs.take k)

def blk (bs : List Block) (k : Nat) : Block := bs.getD k defaultBlock

/-- Global heap state: the address-ordered block chain (`heap_start` chain),
the `free_list` pointer (an address, or `none` for NULL), and the two
statistics counters. -/
structure HeapState where
  blocks : List Block
  freeList : Option Nat
  totalAllocated : Nat
  numAllocations : Nat

/-- heap_init: one free block spanning the arena. -/
def heap_init : HeapState :=
  { blocks := [⟨true, HEAP_SIZE - HEADER_SIZE, fun _ => 0⟩]
    freeList := some HEAP_START
    totalAllocated := 0
    numAllocations := 0 }

/-- Index of the block whose header sits at address `a`, starting the walk
with cursor `c`. -/
def idxOfHeaderGo : List Block → Nat → Nat → Option Nat
  | [], _, _ => none
  | b :: tl, c, a =>
      if c = a then some 0 else (idxOfHeaderGo tl (c + blockSpan b) a).map (· + 1)

def idxOfHeader (bs : List Block) (a : Nat) : Option Nat :=
  idxOfHeaderGo bs HEAP_START a

/-- The block whose header sits at address `a`. -/
def blockAtAddr (bs : List Block) (a : Nat) : Option Block :=
  (idxOfHeader bs a).map (blk bs)

/-- Payload bytes of the block whose payload starts at address `p`. -/
def payloadData (h : HeapState) (p : Nat) : Nat → Nat :=
  match blockAtAddr h.blocks (sub64 p HEADER_SIZE) with
  | some b => b.data
  | none => fun _ => 0

def payloadByte (h : HeapState) (p j : Nat) : Nat := payloadData h p j

/-- Size rounding in kmalloc: `(size + 7) & ~7` on uint64, then the minimum
block size. -/
def roundSize (size : Nat) : Nat :=
  let s := (size + 7) % U64 / 8 * 8
  if s < MIN_BLOCK_SIZE then MIN_BLOCK_SIZE else s

/-- The find_free_block scan: best-fit walk along the `next` chain starting
at the block the free list points to; exact matches stop the scan as soon as
they become the best fit. `idx` is the absolute index of the head of `l`;
`best` carries the best fit's index and size. -/
def findLoop : List Block → Nat → Option (Nat × Nat) → Nat → Option (Nat × Nat)
  | [], _, best, _ => best
  | b :: tl, idx, best, size =>
      if b.free = true ∧ size ≤ b.size then
        match best with
        | none =>
            if b.size = size then some (idx, b.size)
            else findLoop tl (idx + 1) (some (idx, b.size)) size
        | some (bi, bsz) =>
            if b.size < bsz then
              if b.size = size then some (idx, b.size)
              else findLoop tl (idx + 1) (some (idx, b.size)) size
            else findLoop tl (idx + 1) (some (bi, bsz)) size
      else findLoop tl (idx + 1) best size

/-- split_block on a single block.  `remaining` is computed with uint64
wrap-around, exactly as in the C source (`block->size - size - HEADER_SIZE`).
The second block's payload is the tail of the original payload past the new
header. -/
def splitOne (b : Block) (size : Nat) : List Block :=
  let remaining := sub64 (sub64 b.size size) HEADER_SIZE
  if MIN_BLOCK_SIZE ≤ remaining then
    [{ b with size := size },
     ⟨true, remaining, fun i => b.data (i + size + HEADER_SIZE)⟩]
  else [b]

def splitBlockAt : List Block → Nat → Nat → List Block
  | [], _, _ => []
  | b :: tl, 0, size => splitOne b size ++ tl
  | b :: tl, k + 1, size => b :: splitBlockAt tl k size

def setFreeAt : List Block → Nat → Bool → List Block
  | [], _, _ => []
  | b :: tl, 0, f => { b with free := f } :: tl
  | b :: tl, k + 1, f => b :: setFreeAt tl k f

def updateDataAt : List Block → Nat → ((Nat → Nat) → (Nat → Nat)) → List Block
  | [], _, _ => []
  | b :: tl, 0, f => { b with data := f b.data } :: tl
  | b :: tl, k + 1, f => b :: updateDataAt tl k f

/-- Payload of two coalesced blocks.  The 32 bytes where the absorbed header
stood keep whatever the header bytes were; the model does not track header
byte values and renders them as 0. -/
def mergeData (b c : Block) : Nat → Nat := fun i =>
  if i < b.size then b.data i
  else if i < b.size + HEADER_SIZE then 0
  else c.data (i - b.size - HEADER_SIZE)

def mergeBlocks (b c : Block) : Block :=
  ⟨b.free, (b.size + HEADER_SIZE + c.size) % U64, mergeData b c⟩

/-- Forward half of coalesce: absorb block `k + 1` into block `k` if free. -/
def mergeNextAt (bs : List Block) : Nat → List Block
  | 0 =>
    match bs with
    | b :: c :: tl => if c.free = true then mergeBlocks b c :: tl else b :: c :: tl
    | other => other
  | k + 1 =>
    match bs with
    | b :: tl => b :: mergeNextAt tl k
    | [] => []

/-- Merge the pair `(j, j + 1)` when block `j` (the `prev`) is free. -/
def mergePairIfPrevFree (bs : List Block) : Nat → List Block
  | 0 =>
    match bs with
    | p :: b :: tl => if p.free = true then mergeBlocks p b :: tl else p :: b :: tl
    | other => other
  | j + 1 =>
    match bs with
    | p :: tl => p :: mergePairIfPrevFree tl j
    | [] => []

/-- Backward half of coalesce: absorb block `k` into block `k - 1` if the
latter is free. -/
def mergePrevAt (bs : List Block) : Nat → List Block
  | 0 => bs
  | k + 1 => mergePairIfPrevFree bs k

def sizeAt (bs : List Block) (k : Nat) : Nat := (blk bs k).size

def nextHeaderAddr (bs : List Block) (k : Nat) : Option Nat :=
  if k + 1 < bs.length then some (headerAddr bs (k + 1)) else none

/-- The tail of kmalloc once a block has been chosen: split, mark used,
advance the free list if it pointed at the chosen block, update statistics,
return the payload address. -/
def kmallocCommit (h : HeapState) (sz k fa : Nat) : HeapState × Option Nat :=
  let bs1 := splitBlockAt h.blocks k sz
  let bsz := sizeAt bs1 k
  let bs2 := setFreeAt bs1 k false
  let fl := if headerAddr h.blocks k = fa then nextHeaderAddr bs2 k else h.freeList
  ({ blocks := bs2
     freeList := fl
     totalAllocated := (h.totalAllocated + bsz) % U64
     numAllocations := (h.numAllocations + 1) % U64 },
   some (headerAddr h.blocks k + HEADER_SIZE))

/-- kmalloc.  Returns the new heap state and the payload address (`none` for
NULL).  The best-fit scan starts at the block the free list points to and
follows `next` links only, exactly as in the source. -/
def kmalloc (h : HeapState) (size : Nat) : HeapState × Option Nat :=
  if size = 0 then (h, none) else
  match h.freeList with
  | none => (h, none)
  | some fa =>
    match idxOfHeader h.blocks fa with
    | none => (h, none)
    | some s =>
      match findLoop (h.blocks.drop s) s none (roundSize size) with
      | none => (h, none)
      | some (k, _) => kmallocCommit h (roundSize size) k fa

/-- kfree.  A pointer whose header address is not a live header is the C
magic-check miss; a free block is the double-free no-op. -/
def kfree (h : HeapState) (ptr : Nat) : HeapState :=
  if ptr = 0 then h else
  match idxOfHeader h.blocks (sub64 ptr HEADER_SIZE) with
  | none => h
  | some k =>
    if (blk h.blocks k).free = true then h
    else
      let sz := sizeAt h.blocks k
      let bs1 := setFreeAt h.blocks k true
      let fl := match h.freeList with
        | none => some (sub64 ptr HEADER_SIZE)
        | some a => some a
      { blocks := mergePrevAt (mergeNextAt bs1 k) k
        freeList := fl
        totalAllocated := sub64 h.totalAllocated sz
        numAllocations := sub64 h.numAllocations 1 }

/-- Zero the first `total` payload bytes of the block whose payload starts at
`p` (the kcalloc zero loop). -/
def zeroBytesAt (h : HeapState) (p total : Nat) : HeapState :=
  match idxOfHeader h.blocks (sub64 p HEADER_SIZE) with
  | none => h
  | some k =>
      { h with blocks :=
          updateDataAt h.blocks k (fun d => fun i => if i < total then 0 else d i) }

/-- kcalloc: the byte count is `count * size` with uint64 wrap-around and no
overflow check. -/
def kcalloc (h : HeapState) (count size : Nat) : HeapState × Option Nat :=
  let total := count * size % U64
  match kmalloc h total with
  | (h1, none) => (h1, none)
  | (h1, some p) => (zeroBytesAt h1 p total, some p)

/-- The krealloc copy loop: `len` bytes from the payload at `src` to the
payload at `dst`.  Source and destination are distinct blocks whenever
krealloc reaches the copy, so the byte-by-byte C loop and this snapshot copy
agree. -/
def copyBytes (h : HeapState) (dst src len : Nat) : HeapState :=
  match idxOfHeader h.blocks (sub64 dst HEADER_SIZE) with
  | none => h
  | some k =>
      { h with blocks :=
          updateDataAt h.blocks k (fun d => fun i => if i < len then payloadData h src i else d i) }

/-- krealloc. -/
def krealloc (h : HeapState) (ptr newSize : Nat) : HeapState × Option Nat :=
  if ptr = 0 then kmalloc h newSize
  else if newSize = 0 then (kfree h ptr, none)
  else
    match idxOfHeader h.blocks (sub64 ptr HEADER_SIZE) with
    | none => (h, none)
    | some k =>
      let b := blk h.blocks k
      if b.free = true then (h, none)
      else if newSize ≤ b.size then (h, some ptr)
      else
        match kmalloc h newSize with
        | (h1, none) => (h1, none)
        | (h1, some q) =>
            let h2 := copyBytes h1 q ptr b.size
            (kfree h2 ptr, some q)

structure HeapStats where
  total_size : Nat
  used_size : Nat
  free_size : Nat
  num_allocations : Nat
  num_free_blocks : Nat
  largest_free : Nat

/-- heap_get_stats: the walk from `heap_start` over the whole chain. -/
def heap_get_stats (h : HeapState) : HeapStats :=
  { total_size := HEAP_SIZE
    used_size := h.totalAllocated
    free_size := sub64 (sub64 HEAP_SIZE h.totalAllocated) (h.numAllocations * HEADER_SIZE % U64)
    num_allocations := h.numAllocations
    num_free_blocks := (h.blocks.filter (fun b => b.free)).length
    largest_free := h.blocks.foldl (fun m b => if b.free = true && m < b.size then b.size else m) 0 }

/-- The no-adjacent-free-blocks predicate over the address-ordered chain. -/
def noAdjFree (bs : List Block) : Prop :=
  List.Chain' (fun a b => ¬(a.free = true ∧ b.free = true)) bs

/-- Executable check for `noAdjFree`. -/
def noAdjFreeB : List Block → Bool
  | [] => true
  | [_] => true
  | a :: b :: tl => (!(a.free && b.free)) && noAdjFreeB (b :: tl)

theorem noAdjFree_iff (bs : List Block) : noAdjFree bs ↔ noAdjFreeB bs = true := by
  induction bs with
  | nil => simp [noAdjFree, noAdjFreeB]
  | cons a tl ih =>
    cases tl with
    | nil => simp [noAdjFree, noAdjFreeB]
    | cons b tt =>
      rw [noAdjFree, List.chain'_cons, noAdjFreeB, Bool.and_eq_true]
      rw [noAdjFree] at ih
      rw [ih]
      constructor
      · intro hx
        refine ⟨?_, hx.2⟩
        have h1 := hx.1
        cases haf : a.free <;> cases hbf : b.free <;> simp_all
      · intro hx
        refine ⟨?_, hx.2⟩
        have h1 := hx.1
        cases haf : a.free <;> cases hbf : b.free <;> simp_all

instance : DecidablePred noAdjFree := fun bs =>
  decidable_of_iff (noAdjFreeB bs = true) (noAdjFree_iff bs).symm

/-! ### The find_free_block scan only returns free blocks -/

theorem findLoop_free (bs : List Block) (sz : Nat) :
    ∀ (l : List Block) (idx : Nat) (best : Option (Nat × Nat)) (k s : Nat),
      l = bs.drop idx →
      (∀ p q, best = some (p, q) → p < bs.length ∧ (blk bs p).free = true) →
      findLoop l idx best sz = some (k, s) →
      k < bs.length ∧ (blk bs k).free = true := by
  intro l
  induction l with
  | nil =>
    intro idx best k s _ hbest hrun
    exact hbest k s hrun
  | cons b tl ih =>
    intro idx best k s hl hbest hrun
    have hidx : bs[idx]? = some b := by
      have h0 : (bs.drop idx)[0]? = some b := by rw [← hl]; simp
      rw [List.getElem?_drop] at h0
      simpa using h0
    have hblk : blk bs idx = b := by
      simp [blk, List.getD_eq_getElem?_getD, hidx]
    have hlt : idx < bs.length := (List.getElem?_eq_some_iff.mp hidx).1
    have htl : tl = bs.drop (idx + 1) := by
      have := List.tail_drop bs idx
      rw [← hl] at this
      simpa using this
    have hgood : b.free = true → ∀ p q, some (idx, b.size) = some (p, q) →
        p < bs.length ∧ (blk bs p).free = true := by
      intro hbf p q hpq
      obtain ⟨hp, _⟩ := Prod.mk.injEq .. ▸ Option.some.inj hpq
      subst hp
      exact ⟨hlt, hblk ▸ hbf⟩
    rcases best with _ | ⟨bi, bsz⟩
    · simp only [findLoop] at hrun
      by_cases hc : b.free = true ∧ sz ≤ b.size
      · rw [if_pos hc] at hrun
        by_cases hex : b.size = sz
        · rw [if_pos hex] at hrun
          obtain ⟨hk, _⟩ := Prod.mk.injEq .. ▸ Option.some.inj hrun
          subst hk
          exact ⟨hlt, hblk ▸ hc.1⟩
        · rw [if_neg hex] at hrun
          exact ih (idx + 1) (some (idx, b.size)) k s htl (fun p q hpq => hgood hc.1 p q hpq) hrun
      · rw [if_neg hc] at hrun
        exact ih (idx + 1) none k s htl (fun p q hpq => by cases hpq) hrun
    · simp only [findLoop] at hrun
      by_cases hc : b.free = true ∧ sz ≤ b.size
      · rw [if_pos hc] at hrun
        by_cases hlt2 : b.size < bsz
        · rw [if_pos hlt2] at hrun
          by_cases hex : b.size = sz
          · rw [if_pos hex] at hrun
            obtain ⟨hk, _⟩ := Prod.mk.injEq .. ▸ Option.some.inj hrun
            subst hk
            exact ⟨hlt, hblk ▸ hc.1⟩
          · rw [if_neg hex] at hrun
            exact ih (idx + 1) (some (idx, b.size)) k s htl (fun p q hpq => hgood hc.1 p q hpq) hrun
        · rw [if_neg hlt2] at hrun
          exact ih (idx + 1) (some (bi, bsz)) k s htl (fun p q hpq => hbest p q hpq) hrun
      · rw [if_neg hc] at hrun
        exact ih (idx + 1) (some (bi, bsz)) k s htl (fun p q hpq => hbest p q hpq) hrun

/-! ### Chain preservation by the allocation surgery -/

theorem head_setFree_zero (l : List Block) (hne : l ≠ []) :
    ∃ z rest, setFreeAt l 0 false = z :: rest ∧ z.free = false := by
  match l with
  | [] => exact absurd rfl hne
  | x :: xs => exact ⟨{ x with free := false }, xs, rfl, rfl⟩

theorem splitOne_ne_nil (b : Block) (sz : Nat) : splitOne b sz ≠ [] := by
  unfold splitOne
  by_cases hc : MIN_BLOCK_SIZE ≤ sub64 (sub64 b.size sz) HEADER_SIZE
  · simp [hc]
  · simp [hc]

theorem splitOne_split (b : Block) (sz : Nat)
    (hc : MIN_BLOCK_SIZE ≤ sub64 (sub64 b.size sz) HEADER_SIZE) :
    splitOne b sz =
      [{ b with size := sz },
       ⟨true, sub64 (sub64 b.size sz) HEADER_SIZE, fun i => b.data (i + sz + HEADER_SIZE)⟩] := by
  unfold splitOne
  rw [if_pos hc]

theorem splitOne_whole (b : Block) (sz : Nat)
    (hc : ¬MIN_BLOCK_SIZE ≤ sub64 (sub64 b.size sz) HEADER_SIZE) :
    splitOne b sz = [b] := by
  unfold splitOne
  rw [if_neg hc]

/-- The allocation surgery at index `k` is `setFreeAt (splitBlockAt bs k sz) k false`. -/
def allocSurgery (bs : List Block) (k sz : Nat) : List Block :=
  setFreeAt (splitBlockAt bs k sz) k false

theorem allocSurgery_nil (k sz : Nat) : allocSurgery [] k sz = [] := by
  cases k <;> rfl

theorem allocSurgery_succ (b : Block) (tl : List Block) (k sz : Nat) :
    allocSurgery (b :: tl) (k + 1) sz = b :: allocSurgery tl k sz := rfl

theorem allocSurgery_zero_split (b : Block) (tl : List Block) (sz : Nat)
    (hc : MIN_BLOCK_SIZE ≤ sub64 (sub64 b.size sz) HEADER_SIZE) :
    allocSurgery (b :: tl) 0 sz =
      { b with size := sz, free := false } ::
        (⟨true, sub64 (sub64 b.size sz) HEADER_SIZE, fun i => b.data (i + sz + HEADER_SIZE)⟩ : Block) :: tl := by
  show setFreeAt (splitBlockAt (b :: tl) 0 sz) 0 false = _
  have e1 : splitBlockAt (b :: tl) 0 sz = splitOne b sz ++ tl := rfl
  rw [e1, splitOne_split b sz hc]
  rfl

theorem allocSurgery_zero_whole (b : Block) (tl : List Block) (sz : Nat)
    (hc : ¬MIN_BLOCK_SIZE ≤ sub64 (sub64 b.size sz) HEADER_SIZE) :
    allocSurgery (b :: tl) 0 sz = { b with free := false } :: tl := by
  show setFreeAt (splitBlockAt (b :: tl) 0 sz) 0 false = _
  have e1 : splitBlockAt (b :: tl) 0 sz = splitOne b sz ++ tl := rfl
  rw [e1, splitOne_whole b sz hc]
  rfl

theorem allocSurgery_head_not_free (l : List Block) (sz : Nat) :
    ∀ y ∈ (allocSurgery l 0 sz).head?, y.free = false := by
  intro y hy
  match l with
  | [] => rw [allocSurgery_nil] at hy; simp at hy
  | b :: tl =>
    by_cases hc : MIN_BLOCK_SIZE ≤ sub64 (sub64 b.size sz) HEADER_SIZE
    · rw [allocSurgery_zero_split b tl sz hc] at hy
      simp at hy
      subst hy
      rfl
    · rw [allocSurgery_zero_whole b tl sz hc] at hy
      simp at hy
      subst hy
      rfl

theorem chain_preserved_alloc (bs : List Block) (k sz : Nat)
    (h : noAdjFree bs) (hk : (blk bs k).free = true) :
    noAdjFree (allocSurgery bs k sz) := by
  induction bs generalizing k with
  | nil => rw [allocSurgery_nil]; exact List.chain'_nil
  | cons b tl ih =>
    have hpair : ∀ y ∈ tl.head?, ¬(b.free = true ∧ y.free = true) :=
      (List.chain'_cons'.mp h).1
    have htl : noAdjFree tl := (List.chain'_cons'.mp h).2
    cases k with
    | zero =>
      have hb : b.free = true := hk
      have hheadtl : ∀ y ∈ tl.head?, y.free = false := by
        intro y hy
        have hny := hpair y hy
        rcases Bool.eq_false_or_eq_true y.free with ht | hf
        · exact absurd ⟨hb, ht⟩ hny
        · exact hf
      by_cases hc : MIN_BLOCK_SIZE ≤ sub64 (sub64 b.size sz) HEADER_SIZE
      · rw [allocSurgery_zero_split b tl sz hc]
        rw [noAdjFree, List.chain'_cons, List.chain'_cons']
        refine ⟨by simp, ?_, htl⟩
        intro y hy
        have := hheadtl y hy
        simp [this]
      · rw [allocSurgery_zero_whole b tl sz hc]
        rw [noAdjFree, List.chain'_cons']
        exact ⟨by simp, htl⟩
    | succ k =>
      have hk' : (blk tl k).free = true := hk
      rw [allocSurgery_succ]
      rw [noAdjFree, List.chain'_cons']
      refine ⟨?_, ih k htl hk'⟩
      intro y hy
      match tl with
      | [] => rw [allocSurgery_nil] at hy; simp at hy
      | t :: tt =>
        match k with
        | 0 =>
          have := allocSurgery_head_not_free (t :: tt) sz y hy
          simp [this]
        | j + 1 =>
          rw [allocSurgery_succ] at hy
          simp at hy
          subst hy
          exact hpair t (by simp)

/-! ### Chain preservation by the free surgery -/

/-- The free surgery at index `k`: mark the block free, then coalesce
forward and backward, exactly the tail of `kfree`. -/
def freeSurgery (bs : List Block) (k : Nat) : List Block :=
  mergePrevAt (mergeNextAt (setFreeAt bs k true) k) k

theorem headFree_ops (j : Nat) (l : List Block) :
    ((freeSurgery l (j + 1)).head?).map (fun b => b.free) =
      (l.head?).map (fun b => b.free) := by
  rw [freeSurgery]
  match l with
  | [] => cases j <;> rfl
  | p :: rest =>
    match j with
    | 0 =>
      rcases hY : mergeNextAt (setFreeAt rest 0 true) 0 with _ | ⟨y, ys⟩
      · have e : mergePrevAt (mergeNextAt (setFreeAt (p :: rest) 1 true) 1) 1 =
            mergePairIfPrevFree (p :: mergeNextAt (setFreeAt rest 0 true) 0) 0 := rfl
        rw [e, hY]
        rfl
      · have e : mergePrevAt (mergeNextAt (setFreeAt (p :: rest) 1 true) 1) 1 =
            mergePairIfPrevFree (p :: mergeNextAt (setFreeAt rest 0 true) 0) 0 := rfl
        rw [e, hY]
        have e2 : mergePairIfPrevFree (p :: y :: ys) 0 =
            if p.free = true then mergeBlocks p y :: ys else p :: y :: ys := rfl
        rw [e2]
        by_cases hp : p.free = true
        · simp [hp, mergeBlocks]
        · simp [hp]
    | i + 1 =>
      have e : mergePrevAt (mergeNextAt (setFreeAt (p :: rest) (i + 2) true) (i + 2)) (i + 2) =
          p :: mergePairIfPrevFree (mergeNextAt (setFreeAt rest (i + 1) true) (i + 1)) i := rfl
      rw [e]
      rfl

/-- Freeness of the head of a pair after a possible prev-merge at 0. -/
theorem notFree_of_pair (a y : Block) (hpair : ¬(a.free = true ∧ y.free = true))
    (ha : a.free = true) : y.free = false := by
  rcases Bool.eq_false_or_eq_true y.free with ht | hf
  · exact absurd ⟨ha, ht⟩ hpair
  · exact hf

theorem chain_preserved_free (bs : List Block) (k : Nat) (h : noAdjFree bs) :
    noAdjFree (freeSurgery bs k) := by
  induction bs generalizing k with
  | nil =>
    have e : freeSurgery [] k = [] := by
      cases k with
      | zero => rfl
      | succ j => cases j <;> rfl
    rw [e]
    exact List.chain'_nil
  | cons b tl ih =>
    have hpair : ∀ y ∈ tl.head?, ¬(b.free = true ∧ y.free = true) :=
      (List.chain'_cons'.mp h).1
    have htl : noAdjFree tl := (List.chain'_cons'.mp h).2
    rcases k with _ | _ | n
    · -- k = 0: mark b free, merge with the next block when it is free
      cases tl with
      | nil =>
        have e : freeSurgery [b] 0 = [{ b with free := true }] := rfl
        rw [e]
        exact List.chain'_singleton _
      | cons c tt =>
        have hpc : ∀ y ∈ tt.head?, ¬(c.free = true ∧ y.free = true) :=
          (List.chain'_cons'.mp htl).1
        have htt : noAdjFree tt := (List.chain'_cons'.mp htl).2
        have e : freeSurgery (b :: c :: tt) 0 =
            if c.free = true then mergeBlocks { b with free := true } c :: tt
            else { b with free := true } :: c :: tt := rfl
        rw [e]
        by_cases hcf : c.free = true
        · rw [if_pos hcf]
          rw [noAdjFree, List.chain'_cons']
          refine ⟨?_, htt⟩
          intro y hy
          have := notFree_of_pair c y (hpc y hy) hcf
          simp [this]
        · rw [if_neg hcf]
          rw [noAdjFree, List.chain'_cons, List.chain'_cons']
          refine ⟨?_, (List.chain'_cons'.mp htl).1, htt⟩
          simp at hcf
          simp [hcf]
    · -- k = 1: mark the second block free, then coalesce both ways
      cases tl with
      | nil =>
        have e : freeSurgery [b] 1 = [b] := rfl
        rw [e]
        exact List.chain'_singleton _
      | cons c tt =>
        have hpc : ∀ y ∈ tt.head?, ¬(c.free = true ∧ y.free = true) :=
          (List.chain'_cons'.mp htl).1
        have htt : noAdjFree tt := (List.chain'_cons'.mp htl).2
        cases tt with
        | nil =>
          have e : freeSurgery [b, c] 1 =
              if b.free = true then [mergeBlocks b { c with free := true }]
              else [b, { c with free := true }] := rfl
          rw [e]
          by_cases hbf : b.free = true
          · rw [if_pos hbf]
            exact List.chain'_singleton _
          · rw [if_neg hbf]
            rw [noAdjFree, List.chain'_cons]
            simp at hbf
            exact ⟨by simp [hbf], List.chain'_singleton _⟩
        | cons d ts =>
          have hpd : ∀ y ∈ ts.head?, ¬(d.free = true ∧ y.free = true) :=
            (List.chain'_cons'.mp htt).1
          have hts : noAdjFree ts := (List.chain'_cons'.mp htt).2
          by_cases hdf : d.free = true
          · have e : freeSurgery (b :: c :: d :: ts) 1 =
                if b.free = true then
                  mergeBlocks b (mergeBlocks { c with free := true } d) :: ts
                else b :: mergeBlocks { c with free := true } d :: ts := by
              show mergePrevAt (mergeNextAt (b :: { c with free := true } :: d :: ts) 1) 1 = _
              have e1 : mergeNextAt (b :: { c with free := true } :: d :: ts) 1 =
                  b :: (if d.free = true then mergeBlocks { c with free := true } d :: ts
                        else { c with free := true } :: d :: ts) := rfl
              rw [e1, if_pos hdf]
              rfl
            rw [e]
            have hts0 : ∀ y ∈ ts.head?, y.free = false := fun y hy =>
              notFree_of_pair d y (hpd y hy) hdf
            by_cases hbf : b.free = true
            · rw [if_pos hbf]
              rw [noAdjFree, List.chain'_cons']
              refine ⟨?_, hts⟩
              intro y hy
              have := hts0 y hy
              simp [this]
            · rw [if_neg hbf]
              rw [noAdjFree, List.chain'_cons, List.chain'_cons']
              simp at hbf
              refine ⟨by simp [hbf], ?_, hts⟩
              intro y hy
              have := hts0 y hy
              simp [this]
          · have e : freeSurgery (b :: c :: d :: ts) 1 =
                if b.free = true then
                  mergeBlocks b { c with free := true } :: d :: ts
                else b :: { c with free := true } :: d :: ts := by
              show mergePrevAt (mergeNextAt (b :: { c with free := true } :: d :: ts) 1) 1 = _
              have e1 : mergeNextAt (b :: { c with free := true } :: d :: ts) 1 =
                  b :: (if d.free = true then mergeBlocks { c with free := true } d :: ts
                        else { c with free := true } :: d :: ts) := rfl
              rw [e1, if_neg hdf]
              rfl
            rw [e]
            simp at hdf
            by_cases hbf : b.free = true
            · rw [if_pos hbf]
              rw [noAdjFree, List.chain'_cons]
              exact ⟨by simp [hdf], htt⟩
            · rw [if_neg hbf]
              simp at hbf
              rw [noAdjFree, List.chain'_cons, List.chain'_cons]
              exact ⟨by simp [hbf], by simp [hdf], htt⟩
    · -- k = n + 2: the surgery happens strictly inside the tail
      have e : freeSurgery (b :: tl) (n + 2) = b :: freeSurgery tl (n + 1) := by
        cases tl <;> rfl
      rw [e]
      rw [noAdjFree, List.chain'_cons']
      refine ⟨?_, ih (n + 1) htl⟩
      intro y hy
      have hmap := headFree_ops n tl
      rw [Option.mem_def] at hy
      have hsome : ((freeSurgery tl (n + 1)).head?).map (fun b => b.free) = some y.free := by
        rw [hy]; rfl
      rw [hmap] at hsome
      rcases Option.map_eq_some'.mp hsome with ⟨z, hz, hzf⟩
      have := hpair z (by simp [hz])
      intro hcon
      exact this ⟨hcon.1, by rw [hzf]; exact hcon.2⟩

theorem kmalloc_preserves_noAdjFree (h : HeapState) (n : Nat)
    (hinv : noAdjFree h.blocks) : noAdjFree ((kmalloc h n).1.blocks) := by
  rw [kmalloc]
  split
  · exact hinv
  · split
    · exact hinv
    · split
      · exact hinv
      · rename_i x1 fa x2 s hix
        split
        · exact hinv
        · rename_i k ksz hfind
          have hfree : k < h.blocks.length ∧ (blk h.blocks k).free = true :=
            findLoop_free h.blocks (roundSize n) (h.blocks.drop s) s none k ksz rfl
              (fun p q hpq => by cases hpq) hfind
          show noAdjFree (allocSurgery h.blocks k (roundSize n))
          exact chain_preserved_alloc h.blocks k (roundSize n) hinv hfree.2

theorem kfree_preserves_noAdjFree (h : HeapState) (p : Nat)
    (hinv : noAdjFree h.blocks) : noAdjFree ((kfree h p).blocks) := by
  rw [kfree]
  split
  · exact hinv
  · split
    · exact hinv
    · rename_i x1 k hkeq
      split
      · exact hinv
      · show noAdjFree (freeSurgery h.blocks k)
        exact chain_preserved_free h.blocks k hinv

/-! ### The concrete best-fit scenario of the specification (claim C2) -/

def c2_s1 := kmalloc heap_init 256
def c2_s2 := kmalloc c2_s1.1 256
def c2_s3 := kmalloc c2_s2.1 256
def c2_s4 := kfree c2_s3.1 4194624
def c2_s5 := kmalloc c2_s4 100

/-! ### The kcalloc overflow witness state (claim C9) -/

def c9_run := kcalloc heap_init (2 ^ 62 + 1) 4

end Heap

/-- C5: after any free no two adjacent blocks of the chain are both free, and
allocation never creates an adjacent free pair: the no-adjacent-free-blocks
predicate is preserved by every `kmalloc` and every `kfree`. -/
theorem C5_no_adjacent_free_preserved (h : Heap.HeapState) (n p : Nat)
    (hinv : Heap.noAdjFree h.blocks) :
    Heap.noAdjFree ((Heap.kmalloc h n).1.blocks) ∧
      Heap.noAdjFree ((Heap.kfree h p).blocks) :=
  ⟨Heap.kmalloc_preserves_noAdjFree h n hinv, Heap.kfree_preserves_noAdjFree h p hinv⟩

/-- Witness for C5 at a concrete state: the freshly initialised heap satisfies
the predicate, and both operations preserve it there. -/
theorem C5_no_adjacent_free_preserved_witness :
    Heap.noAdjFree Heap.heap_init.blocks ∧
      (Heap.noAdjFree ((Heap.kmalloc Heap.heap_init 256).1.blocks) ∧
        Heap.noAdjFree ((Heap.kfree Heap.heap_init 4194336).blocks)) :=
  ⟨by decide, C5_no_adjacent_free_preserved Heap.heap_init 256 4194336 (by decide)⟩

/-- C2 (evaluation at the failing input): on a fresh heap, after three 256-byte
allocations (payloads 4194336, 4194624, 4194912), freeing the middle one and
allocating 100 bytes, the code returns payload address 4195200 — past the end
of the third block (its successor header sits at 4195168) — while the freed
middle hole (block 1, header 4194592) is still a free 256-byte block;
`largest_free` is 16776184, not the 16776320-byte remainder left after the
three original splits.  The best-fit scan starts at `free_list`, which has
moved past the hole, so the hole is never considered. -/
theorem C2_best_fit_trace :
    (Heap.c2_s1.2, Heap.c2_s2.2, Heap.c2_s3.2) = (some 4194336, some 4194624, some 4194912) ∧
    Heap.c2_s5.2 = some 4195200 ∧
    (Heap.blk Heap.c2_s5.1.blocks 1).free = true ∧
    (Heap.blk Heap.c2_s5.1.blocks 1).size = 256 ∧
    Heap.headerAddr Heap.c2_s5.1.blocks 1 = 4194592 ∧
    Heap.headerAddr Heap.c2_s5.1.blocks 3 = 4195168 ∧
    (Heap.blk Heap.c2_s3.1.blocks 3).size = 16776320 ∧
    (Heap.heap_get_stats Heap.c2_s5.1).largest_free = 16776184 := by
  refine ⟨by decide, by decide, by decide, by decide, by decide, by decide, by decide, by decide⟩

/-- C9: `kcalloc` computes the byte count as `count * size` reduced modulo
`2 ^ 64` with no overflow check, and at `count = 2 ^ 62 + 1, size = 4` — whose
mathematical product `2 ^ 64 + 4` exceeds `2 ^ 64 − 1` and wraps to `4` — it
returns a non-null pointer to a 32-byte block, far smaller than the request. -/
theorem C9_kcalloc_overflow :
    (∀ (h : Heap.HeapState) (count size : Nat),
        (Heap.kcalloc h count size).2 = (Heap.kmalloc h (count * size % U64)).2) ∧
    (2 ^ 62 + 1) * 4 = 2 ^ 64 + 4 ∧
    Heap.c9_run.2 = some 4194336 ∧
    (Heap.blk Heap.c9_run.1.blocks 0).size = 32 ∧
    (Heap.blk Heap.c9_run.1.blocks 0).size < (2 ^ 62 + 1) * 4 := by
  refine ⟨?_, by norm_num, by decide, by decide, by decide⟩
  intro h count size
  rw [Heap.kcalloc]
  rcases hm : Heap.kmalloc h (count * size % U64) with ⟨h1, r⟩
  cases r <;> simp [hm]

/-! ## Syscall gate, from src/kernel/syscall.c and src/kernel/linux_syscall.c

The two dispatch tables are modelled as partial maps from syscall numbers to
handler tags (`syscall_init` / `linux_syscall_init` registrations).  Handlers
whose return value does not depend on kernel or hardware state are given
their constant result; handlers that read the keyboard, heap, framebuffer or
user memory return `none` here, meaning the result is state-dependent. -/

namespace Sys

def MAX_SYSCALL : Nat := 64
def LINUX_MAX_SYSCALL : Nat := 512

inductive NativeHandler
  | sys_exit | sys_print | sys_getkey | sys_kbhit | sys_malloc | sys_free
  | sys_sleep | sys_getpid | sys_putpixel | sys_getpixel | sys_clear
  | sys_getwidth | sys_getheight | sys_drawtext | sys_getfb | sys_meminfo
  | sys_realloc | sys_calloc

open NativeHandler in
/-- The native table as populated by `syscall_init` (numbers from syscall.h). -/
def syscall_table : Nat → Option NativeHandler := fun n =>
  match n with
  | 0 => some sys_exit
  | 1 => some sys_print
  | 2 => some sys_getkey
  | 3 => some sys_kbhit
  | 4 => some sys_malloc
  | 5 => some sys_free
  | 6 => some sys_sleep
  | 7 => some sys_getpid
  | 10 => some sys_putpixel
  | 11 => some sys_getpixel
  | 12 => some sys_clear
  | 13 => some sys_getwidth
  | 14 => some sys_getheight
  | 18 => some sys_drawtext
  | 19 => some sys_getfb
  | 40 => some sys_meminfo
  | 41 => some sys_realloc
  | 42 => some sys_calloc
  | _ => none

/-- Return value of a native handler when it is a state-independent constant:
`sys_exit` and `sys_sleep` return 0, `sys_getpid` returns 1 (single process).
The rest depend on the heap, keyboard, console or framebuffer state. -/
def nativeConstResult : NativeHandler → Option Int
  | .sys_exit => some 0
  | .sys_sleep => some 0
  | .sys_getpid => some 1
  | _ => none

inductive LinuxHandler
  | linux_sys_read | linux_sys_write | linux_sys_open | linux_sys_close
  | linux_sys_fstat | linux_sys_mmap | linux_sys_munmap | linux_sys_brk
  | linux_sys_ioctl | linux_sys_nanosleep | linux_sys_getpid | linux_sys_exit
  | linux_sys_uname | linux_sys_getcwd | linux_sys_sysinfo | linux_sys_getuid
  | linux_sys_getgid | linux_sys_geteuid | linux_sys_getegid | linux_sys_getppid
  | linux_sys_arch_prctl | linux_sys_clock_gettime | linux_sys_exit_group
  | linux_sys_getrandom

open LinuxHandler in
/-- The Linux table as populated by `linux_syscall_init` (numbers from
linux_syscall.h). -/
def linux_syscall_table : Nat → Option LinuxHandler := fun n =>
  match n with
  | 0 => some linux_sys_read
  | 1 => some linux_sys_write
  | 2 => some linux_sys_open
  | 3 => some linux_sys_close
  | 5 => some linux_sys_fstat
  | 9 => some linux_sys_mmap
  | 11 => some linux_sys_munmap
  | 12 => some linux_sys_brk
  | 16 => some linux_sys_ioctl
  | 35 => some linux_sys_nanosleep
  | 39 => some linux_sys_getpid
  | 60 => some linux_sys_exit
  | 63 => some linux_sys_uname
  | 79 => some linux_sys_getcwd
  | 99 => some linux_sys_sysinfo
  | 102 => some linux_sys_getuid
  | 104 => some linux_sys_getgid
  | 107 => some linux_sys_geteuid
  | 108 => some linux_sys_getegid
  | 110 => some linux_sys_getppid
  | 158 => some linux_sys_arch_prctl
  | 228 => some linux_sys_clock_gettime
  | 231 => some linux_sys_exit_group
  | 318 => some linux_sys_getrandom
  | _ => none

/-- Constant results of Linux handlers: `getpid` returns 1, the uid/gid
family and `getppid` return 0, `exit` and `exit_group` return 0 after
printing.  The rest are state-dependent. -/
def linuxConstResult : LinuxHandler → Option Int
  | .linux_sys_getpid => some 1
  | .linux_sys_getuid => some 0
  | .linux_sys_getgid => some 0
  | .linux_sys_geteuid => some 0
  | .linux_sys_getegid => some 0
  | .linux_sys_getppid => some 0
  | .linux_sys_exit => some 0
  | .linux_sys_exit_group => some 0
  | _ => none

/-- `linux_syscall_handler`: an out-of-range or unregistered number logs and
returns −ENOSYS (−38), otherwise the handler runs. -/
def linux_syscall_handler (num : Nat) : Option Int :=
  if LINUX_MAX_SYSCALL ≤ num then some (-38)
  else
    match linux_syscall_table num with
    | none => some (-38)
    | some hd => linuxConstResult hd

/-- `syscall_handler` with the saved `rax` equal to `num`: in Linux ABI mode
everything routes to the Linux dispatcher; otherwise an out-of-range or
unregistered number yields −1, and a registered handler runs.  The result is
the value written back into `rax` (`none` when it is state-dependent). -/
def syscall_handler (linux_abi_mode : Bool) (num : Nat) : Option Int :=
  if linux_abi_mode then linux_syscall_handler num
  else if MAX_SYSCALL ≤ num then some (-1)
  else
    match syscall_table num with
    | none => some (-1)
    | some hd => nativeConstResult hd

end Sys

/-- C3: with `linux_mode` true, syscall number 39 dispatched through the gate
returns 1 (Linux getpid); with `linux_mode` false, number 7 returns 1 (native
getpid). -/
theorem C3_getpid_dispatch :
    Sys.syscall_handler true 39 = some 1 ∧ Sys.syscall_handler false 7 = some 1 := by
  constructor <;> rfl

/-! ## Linux brk, from src/kernel/linux_syscall.c -/

namespace Sys

def PROGRAM_BREAK_INIT : Nat := 0x800000
def PROGRAM_BREAK_MAX : Nat := 0x1000000

/-- `linux_sys_brk`: returns the new program break state and the syscall
result (which the source always makes equal to the resulting break). -/
def linux_sys_brk (program_break : Nat) (addr : Nat) : Nat × Nat :=
  if addr = 0 then (program_break, program_break)
  else if program_break ≤ addr ∧ addr < PROGRAM_BREAK_MAX then (addr, addr)
  else (program_break, program_break)

/-- The break after a whole sequence of brk calls, starting from boot. -/
def brkRun (l : List Nat) : Nat :=
  l.foldl (fun pb a => (linux_sys_brk pb a).1) PROGRAM_BREAK_INIT

theorem brk_step_bounds (pb a : Nat) (hlo : PROGRAM_BREAK_INIT ≤ pb)
    (hhi : pb < PROGRAM_BREAK_MAX) :
    PROGRAM_BREAK_INIT ≤ (linux_sys_brk pb a).1 ∧
      (linux_sys_brk pb a).1 < PROGRAM_BREAK_MAX := by
  rw [linux_sys_brk]
  split
  · exact ⟨hlo, hhi⟩
  · split
    · rename_i hc
      exact ⟨le_trans hlo hc.1, hc.2⟩
    · exact ⟨hlo, hhi⟩

theorem brkRun_bounds (l : List Nat) :
    PROGRAM_BREAK_INIT ≤ brkRun l ∧ brkRun l < PROGRAM_BREAK_MAX := by
  rw [brkRun]
  have hgen : ∀ (l : List Nat) (pb : Nat),
      PROGRAM_BREAK_INIT ≤ pb → pb < PROGRAM_BREAK_MAX →
      PROGRAM_BREAK_INIT ≤ l.foldl (fun pb a => (linux_sys_brk pb a).1) pb ∧
        l.foldl (fun pb a => (linux_sys_brk pb a).1) pb < PROGRAM_BREAK_MAX := by
    intro l
    induction l with
    | nil => intro pb hlo hhi; exact ⟨hlo, hhi⟩
    | cons a tl ih =>
      intro pb hlo hhi
      have hstep := brk_step_bounds pb a hlo hhi
      exact ih _ hstep.1 hstep.2
  exact hgen l PROGRAM_BREAK_INIT le_rfl (by norm_num [PROGRAM_BREAK_INIT, PROGRAM_BREAK_MAX])

end Sys

/-- C10: the Linux brk handler never decreases the break.  `brk(0)` returns
the current break unchanged; a request below the current break or at or above
the 16 MiB limit leaves the break unchanged and returns it; only requests in
`[current break, 0x1000000)` move the break; hence the break never decreases
over a call and over every sequence of brk calls from boot it stays within
`[0x800000, 0x1000000)`. -/
theorem C10_brk_monotone (pb addr : Nat) (l : List Nat) :
    (Sys.linux_sys_brk pb 0 = (pb, pb)) ∧
    (addr ≠ 0 → addr < pb ∨ Sys.PROGRAM_BREAK_MAX ≤ addr →
      Sys.linux_sys_brk pb addr = (pb, pb)) ∧
    (pb ≤ addr → addr < Sys.PROGRAM_BREAK_MAX →
      Sys.linux_sys_brk pb addr = (addr, addr)) ∧
    pb ≤ (Sys.linux_sys_brk pb addr).1 ∧
    (Sys.PROGRAM_BREAK_INIT ≤ Sys.brkRun l ∧ Sys.brkRun l < Sys.PROGRAM_BREAK_MAX) := by
  refine ⟨rfl, ?_, ?_, ?_, Sys.brkRun_bounds l⟩
  · intro hne hbad
    rw [Sys.linux_sys_brk, if_neg hne, if_neg]
    rintro ⟨hle, hlt⟩
    rcases hbad with hb | hb
    · omega
    · omega
  · intro hle hlt
    by_cases h0 : addr = 0
    · subst h0
      have hpb : pb = 0 := Nat.le_zero.mp hle
      subst hpb
      rfl
    · rw [Sys.linux_sys_brk, if_neg h0, if_pos ⟨hle, hlt⟩]
  · rw [Sys.linux_sys_brk]
    split
    · exact le_rfl
    · split
      · rename_i hc; exact hc.1
      · exact le_rfl

/-- Witness for C10 at concrete values: break 0x900000, request 0xA00000 and
an explicit call sequence. -/
theorem C10_brk_monotone_witness :
    (Sys.linux_sys_brk 0x900000 0 = (0x900000, 0x900000)) ∧
    (0xA00000 ≠ 0 → 0xA00000 < 0x900000 ∨ Sys.PROGRAM_BREAK_MAX ≤ 0xA00000 →
      Sys.linux_sys_brk 0x900000 0xA00000 = (0x900000, 0x900000)) ∧
    (0x900000 ≤ 0xA00000 → 0xA00000 < Sys.PROGRAM_BREAK_MAX →
      Sys.linux_sys_brk 0x900000 0xA00000 = (0xA00000, 0xA00000)) ∧
    0x900000 ≤ (Sys.linux_sys_brk 0x900000 0xA00000).1 ∧
    (Sys.PROGRAM_BREAK_INIT ≤ Sys.brkRun [0x900000, 0x880000, 0xF00000] ∧
      Sys.brkRun [0x900000, 0x880000, 0xF00000] < Sys.PROGRAM_BREAK_MAX) :=
  C10_brk_monotone 0x900000 0xA00000 [0x900000, 0x880000, 0xF00000]

/-! ## ELF64 relocatable-module loader, from src/kernel/elf.c, and the module
subsystem's symbol store, from src/kernel/module.c

The ET_REL input is modelled structurally: its sections (the fields of
`Elf64_Shdr` that `elf_load_module` reads), its symbol table (with the
`strtab + st_name` indirection abstracted to the symbol's name string), and
its SHT_RELA sections.  The loader model covers the section address
assignment and the relocation pass; each applied relocation is recorded as a
`Write` carrying the target address, the relocation type, the resolved symbol
value, the addend, and the bit pattern stored.  `base` stands for the address
`kmalloc` returned for the module body. -/

namespace Elf

def SHF_ALLOC : Nat := 0x2
def SHT_NOBITS : Nat := 8
def R_X86_64_64 : Nat := 1
def R_X86_64_PC32 : Nat := 2
def R_X86_64_PLT32 : Nat := 4
def R_X86_64_32 : Nat := 10
def R_X86_64_32S : Nat := 11
def ELF_OK : Int := 0
def ELF_ERR_SYMBOL : Int := -6

/-- The fields of a section header that the module path reads. -/
structure Section where
  sh_flags : Nat
  sh_type : Nat
  sh_addralign : Nat
  sh_size : Nat

/-- A symbol-table entry; `name` stands for `strtab + st_name`. -/
structure Sym where
  name : String
  st_shndx : Nat
  st_value : Nat

/-- One Elf64_Rela entry. -/
structure Rela where
  symIdx : Nat
  relType : Nat
  r_offset : Nat
  r_addend : Int

/-- A SHT_RELA section: `sh_info` names the target section. -/
structure RelaSection where
  sh_info : Nat
  entries : List Rela

structure RelObject where
  sections : List Section
  symtab : List Sym
  relaSecs : List RelaSection

def sectionAlloc (s : Section) : Bool := s.sh_flags &&& SHF_ALLOC ≠ 0

/-- `(current + align - 1) & ~(align - 1)` on uint64. -/
def alignUp (x a : Nat) : Nat :=
  Nat.land ((x + (a + U64 - 1) % U64) % U64) (U64 - 1 - (a + U64 - 1) % U64)

/-- Runtime addresses assigned to the sections by the loading loop: the
cursor starts at `base`, aligns and advances over every SHF_ALLOC section;
non-allocated sections keep the memset value 0. -/
def sectionAddrsGo : List Section → Nat → List Nat
  | [], _ => []
  | s :: tl, cur =>
      if sectionAlloc s then
        let a := alignUp cur s.sh_addralign
        a :: sectionAddrsGo tl ((a + s.sh_size) % U64)
      else 0 :: sectionAddrsGo tl cur

def section_addrs (base : Nat) (secs : List Section) : List Nat :=
  sectionAddrsGo secs base

/-! ### The kernel symbol stores -/

/-- A kernel symbol table: name/address pairs. -/
def SymTable := List (String × Nat)

/-- The elf.c-side registered table (`kernel_symbols` in elf.c).  The kernel
never calls `elf_register_kernel_symbols`, so at boot this is empty. -/
def elf_boot_kernel_symbols : SymTable := []

/-- elf.c `find_kernel_symbol`: linear scan of the registered table. -/
def find_kernel_symbol (ksyms : SymTable) (name : String) : Option Nat :=
  match ksyms with
  | [] => none
  | (n, a) :: tl => if n = name then some a else find_kernel_symbol tl name

/-- The names of module.c's built-in symbol table, in table order. -/
def builtin_symbol_names : List String :=
  ["kmalloc", "kfree", "krealloc", "kcalloc",
   "console_print", "console_putchar", "console_clear", "console_newline",
   "device_register", "device_unregister", "device_create", "device_destroy",
   "driver_register", "driver_unregister",
   "vfs_lookup", "vfs_register_filesystem",
   "module_find", "module_find_symbol"]

/-- module.c's built-in table; `linkAddr` gives each exported function its
link-time address. -/
def builtin_symbols (linkAddr : String → Nat) : SymTable :=
  builtin_symbol_names.map (fun n => (n, linkAddr n))

def MODULE_STATE_RUNNING : Nat := 3

/-- The slice of a loaded module that symbol lookup reads: its state and the
exported symbols of its image (`elf_find_symbol` over the rewritten symbol
table, abstracted to name/address pairs). -/
structure ModuleRec where
  state : Nat
  exports : SymTable

/-- elf.c `elf_find_symbol` on a module's retained symbol table. -/
def elf_find_symbol (exports : SymTable) (name : String) : Option Nat :=
  match exports with
  | [] => none
  | (n, a) :: tl => if n = name then some a else elf_find_symbol tl name

/-- The third stage of `kernel_symbol_lookup`: walk the loaded-module list
and ask every module in state running for its exported symbol. -/
def module_walk (name : String) : List ModuleRec → Option Nat
  | [] => none
  | m :: tl =>
    if m.state = MODULE_STATE_RUNNING then
      match elf_find_symbol m.exports name with
      | some a => some a
      | none => module_walk name tl
    else module_walk name tl

/-- module.c `kernel_symbol_lookup`: built-in symbols, then the registered
table, then the exported symbols of every loaded module in state running,
first match wins. -/
def kernel_symbol_lookup (linkAddr : String → Nat) (registered : SymTable)
    (loaded_modules : List ModuleRec) (name : String) : Option Nat :=
  match find_kernel_symbol (builtin_symbols linkAddr) name with
  | some a => some a
  | none =>
    match find_kernel_symbol registered name with
    | some a => some a
    | none => module_walk name loaded_modules

/-! ### The relocation pass -/

/-- A record of one applied relocation: where it wrote, which relocation type
it was, the resolved symbol value and addend it used, and the raw bit pattern
it stored (with its width in bytes). -/
structure Write where
  target : Nat
  relType : Nat
  symVal : Nat
  addend : Int
  width : Nat
  bits : Nat
  deriving DecidableEq

/-- Symbol resolution inside the relocation loop: an undefined symbol
(section index zero) goes to elf.c's `find_kernel_symbol`; a defined one gets
`section_addrs[st_shndx] + st_value`. -/
def resolveSym (ksyms : SymTable) (addrs : List Nat) (sym : Sym) : Option Nat :=
  if sym.st_shndx = 0 then find_kernel_symbol ksyms sym.name
  else some ((addrs.getD sym.st_shndx 0 + sym.st_value) % U64)

/-- The relocation switch: the bit pattern written at `target` for symbol
value `s`, addend `a`.  uint64 arithmetic throughout; the 32-bit forms keep
the low 32 bits of the uint64 value, exactly what the int32/uint32 stores in
the source keep.  Unknown types are logged and skipped (`none`). -/
def applyReloc (relType symVal : Nat) (addend : Int) (target : Nat) : Option (Nat × Nat) :=
  let s : Int := (symVal : Int) + addend
  if relType = R_X86_64_64 then some (8, (s % (U64 : Int)).toNat)
  else if relType = R_X86_64_PC32 ∨ relType = R_X86_64_PLT32 then
    some (4, ((s - (target : Int)) % (4294967296 : Int)).toNat)
  else if relType = R_X86_64_32 then some (4, (s % (4294967296 : Int)).toNat)
  else if relType = R_X86_64_32S then some (4, (s % (4294967296 : Int)).toNat)
  else none

/-- Process the entries of one SHT_RELA section whose target base is
`tbase`.  An unresolved undefined symbol aborts with `ELF_ERR_SYMBOL`. -/
def processEntries (ksyms : SymTable) (addrs : List Nat) (symtab : List Sym)
    (tbase : Nat) : List Rela → Except Int (List Write)
  | [] => .ok []
  | e :: tl =>
    match resolveSym ksyms addrs (symtab.getD e.symIdx ⟨"", 0, 0⟩) with
    | none => .error ELF_ERR_SYMBOL
    | some symVal =>
      match processEntries ksyms addrs symtab tbase tl with
      | .error code => .error code
      | .ok ws =>
        match applyReloc e.relType symVal e.r_addend ((tbase + e.r_offset) % U64) with
        | none => .ok ws
        | some (w, bits) =>
            .ok (⟨(tbase + e.r_offset) % U64, e.relType, symVal, e.r_addend, w, bits⟩ :: ws)

/-- Process every SHT_RELA section whose target section is allocated. -/
def processRelaSecs (ksyms : SymTable) (secs : List Section) (addrs : List Nat)
    (symtab : List Sym) : List RelaSection → Except Int (List Write)
  | [] => .ok []
  | r :: tl =>
    let target_shdr := secs.getD r.sh_info ⟨0, 0, 0, 0⟩
    if sectionAlloc target_shdr then
      match processEntries ksyms addrs symtab (addrs.getD r.sh_info 0) r.entries with
      | .error code => .error code
      | .ok ws =>
        match processRelaSecs ksyms secs addrs symtab tl with
        | .error code => .error code
        | .ok ws2 => .ok (ws ++ ws2)
    else processRelaSecs ksyms secs addrs symtab tl

/-- The symbol-resolution and relocation phase of `elf_load_module` for a
relocatable object placed at `base`: assign section addresses, then process
the relocations against the elf.c kernel symbol table `ksyms`.  (Validation,
byte copying, and the init/cleanup scan around this phase do not affect
which relocations are applied or whether resolution fails.) -/
def elf_load_module_relocate (ksyms : SymTable) (base : Nat) (m : RelObject) :
    Except Int (List Write) :=
  let addrs := section_addrs base m.sections
  processRelaSecs ksyms m.sections addrs m.symtab m.relaSecs

/-- Two's-complement reading of a 32-bit pattern. -/
def int32OfBits (bits : Nat) : Int :=
  if bits < 2147483648 then (bits : Int) else (bits : Int) - 4294967296

/-- Truncation of an integer to signed 32-bit, the meaning of the C cast
`(int32_t)v`. -/
def signedTrunc32 (v : Int) : Int :=
  ((v + 2147483648) % 4294967296) - 2147483648

/-- Reading back the stored low 32 bits of `v` as a signed 32-bit integer
gives exactly the signed-32 truncation of `v`. -/
theorem int32OfBits_emod (v : Int) :
    int32OfBits ((v % 4294967296).toNat) = signedTrunc32 v := by
  rw [int32OfBits, signedTrunc32]
  split <;> omega

/-- The property claim C4 asserts of a recorded relocation write. -/
def pc32Correct (w : Write) : Prop :=
  w.relType = R_X86_64_PC32 ∨ w.relType = R_X86_64_PLT32 →
    w.width = 4 ∧
    w.bits = (((w.symVal : Int) + w.addend - (w.target : Int)) % 4294967296).toNat ∧
    int32OfBits w.bits = signedTrunc32 ((w.symVal : Int) + w.addend - (w.target : Int))

theorem applyReloc_pc32 (relType symVal : Nat) (addend : Int) (target wd bits : Nat)
    (happ : applyReloc relType symVal addend target = some (wd, bits))
    (htype : relType = R_X86_64_PC32 ∨ relType = R_X86_64_PLT32) :
    wd = 4 ∧
      bits = (((symVal : Int) + addend - (target : Int)) % 4294967296).toNat ∧
      int32OfBits bits = signedTrunc32 ((symVal : Int) + addend - (target : Int)) := by
  rw [applyReloc] at happ
  have hne1 : ¬(relType = R_X86_64_64) := by
    rcases htype with ht | ht <;> rw [ht] <;>
      norm_num [R_X86_64_PC32, R_X86_64_PLT32, R_X86_64_64]
  rw [if_neg hne1, if_pos htype] at happ
  obtain ⟨hw, hb⟩ := Prod.mk.injEq .. ▸ Option.some.inj happ
  subst hw
  subst hb
  exact ⟨rfl, rfl, int32OfBits_emod _⟩

theorem processEntries_pc32 (ksyms : SymTable) (addrs : List Nat) (symtab : List Sym)
    (tbase : Nat) :
    ∀ (l : List Rela) (ws : List Write),
      processEntries ksyms addrs symtab tbase l = .ok ws →
      ∀ w ∈ ws, pc32Correct w := by
  intro l
  induction l with
  | nil =>
    intro ws hok w hw
    rw [processEntries] at hok
    cases hok
    cases hw
  | cons e tl ih =>
    intro ws hok w hw
    rw [processEntries] at hok
    split at hok
    · cases hok
    · rename_i symVal hres
      split at hok
      · cases hok
      · rename_i ws1 hrec
        split at hok
        · cases hok
          exact ih _ hrec w hw
        · rename_i wd bits happ
          cases hok
          rcases List.mem_cons.mp hw with hw1 | hw1
          · rw [hw1]
            intro htype
            exact applyReloc_pc32 e.relType symVal e.r_addend _ wd bits happ htype
          · exact ih ws1 hrec w hw1

theorem processRelaSecs_pc32 (ksyms : SymTable) (secs : List Section) (addrs : List Nat)
    (symtab : List Sym) :
    ∀ (rl : List RelaSection) (ws : List Write),
      processRelaSecs ksyms secs addrs symtab rl = .ok ws →
      ∀ w ∈ ws, pc32Correct w := by
  intro rl
  induction rl with
  | nil =>
    intro ws hok w hw
    rw [processRelaSecs] at hok
    cases hok
    cases hw
  | cons r tl ih =>
    intro ws hok w hw
    rw [processRelaSecs] at hok
    by_cases halloc : sectionAlloc (secs.getD r.sh_info ⟨0, 0, 0, 0⟩) = true
    · rw [if_pos halloc] at hok
      rcases h1 : processEntries ksyms addrs symtab (addrs.getD r.sh_info 0) r.entries
          with code | ws1
      · rw [h1] at hok; cases hok
      · rw [h1] at hok
        rcases h2 : processRelaSecs ksyms secs addrs symtab tl with code | ws2
        · rw [h2] at hok; cases hok
        · rw [h2] at hok
          cases hok
          rcases List.mem_append.mp hw with hw1 | hw1
          · exact processEntries_pc32 ksyms addrs symtab _ r.entries ws1 h1 w hw1
          · exact ih ws2 h2 w hw1
    · rw [if_neg halloc] at hok
      exact ih ws hok w hw

/-- The concrete relocatable object used as the C4 witness: a null section, a
64-byte SHF_ALLOC text section, a defined symbol at offset 8 of it, and one
PC32 relocation at offset 32 with addend −4. -/
def c4_mod : RelObject :=
  { sections := [⟨0, 0, 0, 0⟩, ⟨2, 1, 16, 64⟩]
    symtab := [⟨"", 0, 0⟩, ⟨"foo", 1, 8⟩]
    relaSecs := [⟨1, [⟨1, 2, 32, -4⟩]⟩] }

/-- The relocatable object with a single undefined `kmalloc` symbol used for
claim C1: its only relocation is a PC32 call-site referring to symbol 1,
which has section index 0 (undefined). -/
def c1_mod : RelObject :=
  { sections := [⟨0, 0, 0, 0⟩, ⟨2, 1, 16, 64⟩]
    symtab := [⟨"", 0, 0⟩, ⟨"kmalloc", 0, 0⟩]
    relaSecs := [⟨1, [⟨1, 2, 4, -4⟩]⟩] }

end Elf

/-- C4: every relocation of type R_X86_64_PC32 or R_X86_64_PLT32 applied by
the module loader writes the 32-bit value `symbol + addend − target_address`
truncated to signed 32-bit at the relocation's target address: the recorded
write covers 4 bytes and its bit pattern, read back as a two's-complement
32-bit integer, equals the signed-32 truncation of that difference. -/
theorem C4_pc32_writes (ksyms : Elf.SymTable) (base : Nat) (m : Elf.RelObject)
    (writes : List Elf.Write)
    (hok : Elf.elf_load_module_relocate ksyms base m = .ok writes) :
    ∀ w ∈ writes,
      w.relType = Elf.R_X86_64_PC32 ∨ w.relType = Elf.R_X86_64_PLT32 →
        w.width = 4 ∧
        w.bits = (((w.symVal : Int) + w.addend - (w.target : Int)) % 4294967296).toNat ∧
        Elf.int32OfBits w.bits =
          Elf.signedTrunc32 ((w.symVal : Int) + w.addend - (w.target : Int)) := by
  rw [Elf.elf_load_module_relocate] at hok
  exact Elf.processRelaSecs_pc32 ksyms m.sections _ m.symtab m.relaSecs writes hok

/-- Witness for C4: loading `c4_mod` at base 0x500000 applies exactly one
PC32 relocation, writing bits 4294967268 (the two's-complement pattern of
−28 = 5242884 − 5242912) at target 5242912, and the theorem's conclusion
holds of it. -/
theorem C4_pc32_writes_witness :
    Elf.elf_load_module_relocate Elf.elf_boot_kernel_symbols 5242880 Elf.c4_mod =
      .ok [⟨5242912, 2, 5242888, -4, 4, 4294967268⟩] ∧
    ((4 : Nat) = 4 ∧
      (4294967268 : Nat) =
        ((((5242888 : Nat) : Int) + (-4) - ((5242912 : Nat) : Int)) % 4294967296).toNat ∧
      Elf.int32OfBits 4294967268 =
        Elf.signedTrunc32 (((5242888 : Nat) : Int) + (-4) - ((5242912 : Nat) : Int))) := by
  refine ⟨rfl, ?_⟩
  exact C4_pc32_writes Elf.elf_boot_kernel_symbols 5242880 Elf.c4_mod
    [⟨5242912, 2, 5242888, -4, 4, 4294967268⟩] rfl
    ⟨5242912, 2, 5242888, -4, 4, 4294967268⟩ (by simp) (Or.inl rfl)

/-- C1 (evaluation at the failing input): with the boot state of the elf.c
kernel-symbol table — `elf_register_kernel_symbols` is never called anywhere
in the kernel, so the table is empty — loading a module whose only undefined
symbol is `kmalloc` fails with `ELF_ERR_SYMBOL`, although module.c's
`kernel_symbol_lookup` (the three-stage store: built-ins, then the
late-registered table, then running modules) resolves `kmalloc` from its
built-in table.  The relocation path calls elf.c's `find_kernel_symbol`, not
`kernel_symbol_lookup`, and the two stores are never wired together. -/
theorem C1_kmalloc_module_load (linkAddr : String → Nat) (base : Nat)
    (registered : Elf.SymTable) (mods : List Elf.ModuleRec) :
    Elf.elf_load_module_relocate Elf.elf_boot_kernel_symbols base Elf.c1_mod =
      .error Elf.ELF_ERR_SYMBOL ∧
    Elf.find_kernel_symbol Elf.elf_boot_kernel_symbols "kmalloc" = none ∧
    Elf.kernel_symbol_lookup linkAddr registered mods "kmalloc" =
      some (linkAddr "kmalloc") := by
  exact ⟨rfl, rfl, rfl⟩

end NBOS

/-! ### Address stability of the block chain under local surgeries

`idxOfHeaderGo` walks the chain summing spans; a surgery that replaces a
contiguous region by one of equal total span leaves the header addresses of
every block outside the region unchanged.  These lemmas carry a block through
the split/mark/merge surgeries of kmalloc, copy and kfree, which is what the
krealloc byte-preservation argument needs. -/

namespace NBOS
namespace Heap

theorem blockSpan_pos (b : Block) : 0 < blockSpan b := by
  simp only [blockSpan, HEADER_SIZE]
  omega

theorem blockSpan_ge (b : Block) : HEADER_SIZE ≤ blockSpan b := by
  simp only [blockSpan]
  omega

theorem spanSum_cons (b : Block) (l : List Block) :
    spanSum (b :: l) = blockSpan b + spanSum l := by
  simp [spanSum]

theorem spanSum_append (l r : List Block) :
    spanSum (l ++ r) = spanSum l + spanSum r := by
  simp [spanSum]

theorem blk_eq_getElem (bs : List Block) (k : Nat) (hk : k < bs.length) :
    blk bs k = bs[k] := by
  simp [blk, List.getD_eq_getElem?_getD, List.getElem?_eq_getElem hk]

theorem drop_eq_blk_cons (bs : List Block) (k : Nat) (hk : k < bs.length) :
    bs.drop k = blk bs k :: bs.drop (k + 1) := by
  rw [blk_eq_getElem bs k hk]
  exact List.drop_eq_getElem_cons hk

theorem idxGo_sound : ∀ (bs : List Block) (c a k : Nat),
    idxOfHeaderGo bs c a = some k → k < bs.length ∧ a = c + spanSum (bs.take k) := by
  intro bs
  induction bs with
  | nil => intro c a k h; cases h
  | cons b tl ih =>
    intro c a k h
    rw [idxOfHeaderGo] at h
    by_cases hc : c = a
    · rw [if_pos hc] at h
      cases h
      refine ⟨Nat.succ_pos _, ?_⟩
      simp [hc, spanSum]
    · rw [if_neg hc] at h
      cases hrec : idxOfHeaderGo tl (c + blockSpan b) a with
      | none => rw [hrec] at h; cases h
      | some j =>
        rw [hrec] at h
        obtain ⟨hj, ha⟩ := ih _ _ _ hrec
        have hk : k = j + 1 := by
          simpa using (Option.some.inj h).symm
        subst hk
        refine ⟨by simpa using Nat.succ_lt_succ hj, ?_⟩
        simp only [List.take_succ_cons, spanSum_cons]
        omega

theorem idxGo_complete : ∀ (bs : List Block) (c a k : Nat),
    k < bs.length → a = c + spanSum (bs.take k) → idxOfHeaderGo bs c a = some k := by
  intro bs
  induction bs with
  | nil => intro c a k hk _; cases hk
  | cons b tl ih =>
    intro c a k hk ha
    cases k with
    | zero =>
      have : c = a := by simpa using ha.symm
      rw [idxOfHeaderGo, if_pos this]
    | succ j =>
      have hspan : a = (c + blockSpan b) + spanSum (tl.take j) := by
        simp only [List.take_succ_cons, spanSum_cons] at ha
        omega
      have hne : c ≠ a := by
        have := blockSpan_pos b
        omega
      rw [idxOfHeaderGo, if_neg hne, ih (c + blockSpan b) a j (by simpa using hk) hspan]
      rfl

theorem idxGo_none_of_ge : ∀ (bs : List Block) (c a : Nat),
    c + spanSum bs ≤ a → idxOfHeaderGo bs c a = none := by
  intro bs
  induction bs with
  | nil => intro c a _; rfl
  | cons b tl ih =>
    intro c a hle
    rw [spanSum_cons] at hle
    have hne : c ≠ a := by
      have := blockSpan_pos b
      omega
    rw [idxOfHeaderGo, if_neg hne, ih (c + blockSpan b) a (by omega)]
    rfl

theorem idxGo_append_left : ∀ (T R : List Block) (c a k : Nat),
    idxOfHeaderGo T c a = some k → idxOfHeaderGo (T ++ R) c a = some k := by
  intro T
  induction T with
  | nil => intro R c a k h; cases h
  | cons b tl ih =>
    intro R c a k h
    rw [idxOfHeaderGo] at h
    rw [List.cons_append, idxOfHeaderGo]
    by_cases hc : c = a
    · rw [if_pos hc] at h ⊢
      exact h
    · rw [if_neg hc] at h ⊢
      cases hrec : idxOfHeaderGo tl (c + blockSpan b) a with
      | none => rw [hrec] at h; cases h
      | some j =>
        rw [hrec] at h
        rw [ih R (c + blockSpan b) a j hrec]
        exact h

theorem idxGo_append_right : ∀ (T R : List Block) (c a : Nat),
    idxOfHeaderGo T c a = none →
    idxOfHeaderGo (T ++ R) c a = (idxOfHeaderGo R (c + spanSum T) a).map (· + T.length) := by
  intro T
  induction T with
  | nil =>
    intro R c a _
    simp [spanSum]
  | cons b tl ih =>
    intro R c a h
    rw [idxOfHeaderGo] at h
    by_cases hc : c = a
    · rw [if_pos hc] at h
      exact Option.noConfusion h
    · rw [if_neg hc] at h
      have htl : idxOfHeaderGo tl (c + blockSpan b) a = none := by
        cases hrec : idxOfHeaderGo tl (c + blockSpan b) a with
        | none => rfl
        | some j => rw [hrec] at h; cases h
      show idxOfHeaderGo (b :: (tl ++ R)) c a = _
      rw [idxOfHeaderGo, if_neg hc, ih R (c + blockSpan b) a htl]
      rw [Option.map_map]
      rw [spanSum_cons]
      have harg : c + (blockSpan b + spanSum tl) = c + blockSpan b + spanSum tl := by omega
      rw [harg]
      cases idxOfHeaderGo R (c + blockSpan b + spanSum tl) a with
      | none => rfl
      | some j =>
        simp only [Option.map_some', Function.comp_apply, Option.some.injEq, List.length_cons]
        omega

end Heap
end NBOS

namespace NBOS
namespace Heap

theorem take_decomp (bs : List Block) (lo hi : Nat) (hlo : lo ≤ hi) :
    bs.take hi = bs.take lo ++ (bs.drop lo).take (hi - lo) := by
  have h : lo + (hi - lo) = hi := by omega
  conv_lhs => rw [← h]
  rw [List.take_add]

theorem surgerySpan (bs : List Block) (lo hi : Nat) (M2 : List Block)
    (hlo : lo ≤ hi)
    (hspan : spanSum M2 = spanSum ((bs.drop lo).take (hi - lo))) :
    spanSum (bs.take lo ++ M2 ++ bs.drop hi) = spanSum bs := by
  conv_rhs => rw [← List.take_append_drop hi bs]
  rw [spanSum_append, spanSum_append, spanSum_append, hspan,
    take_decomp bs lo hi hlo, spanSum_append]

theorem surgeryStable (bs : List Block) (lo hi : Nat) (M2 : List Block)
    (hlo : lo ≤ hi) (hhi : hi ≤ bs.length)
    (hspan : spanSum M2 = spanSum ((bs.drop lo).take (hi - lo)))
    (k : Nat) (hk : k < bs.length) (hout : k < lo ∨ hi ≤ k) :
    idxOfHeader (bs.take lo ++ M2 ++ bs.drop hi) (headerAddr bs k) =
      some (if k < lo then k else lo + M2.length + (k - hi)) ∧
    blk (bs.take lo ++ M2 ++ bs.drop hi) (if k < lo then k else lo + M2.length + (k - hi)) =
      blk bs k := by
  have hTlen : (bs.take lo).length = lo := by
    rw [List.length_take]
    omega
  have hDlen : (bs.drop hi).length = bs.length - hi := List.length_drop ..
  rcases hout with hklo | hkhi
  · have hif : (if k < lo then k else lo + M2.length + (k - hi)) = k := if_pos hklo
    rw [hif]
    have htake : (bs.take lo ++ M2 ++ bs.drop hi).take k = bs.take k := by
      rw [List.take_append_of_le_length, List.take_append_of_le_length, List.take_take]
      · congr 1
        omega
      · omega
      · rw [List.length_append]
        omega
    have hlen : k < (bs.take lo ++ M2 ++ bs.drop hi).length := by
      rw [List.length_append, List.length_append]
      omega
    constructor
    · apply idxGo_complete _ _ _ _ hlen
      show headerAddr bs k = HEAP_START + spanSum ((bs.take lo ++ M2 ++ bs.drop hi).take k)
      rw [htake]
      rfl
    · have hget : (bs.take lo ++ M2 ++ bs.drop hi)[k]? = bs[k]? := by
        rw [List.getElem?_append_left, List.getElem?_append_left, List.getElem?_take]
        · rw [if_pos hklo]
        · omega
        · rw [List.length_append]
          omega
      simp only [blk, List.getD_eq_getElem?_getD]
      rw [hget]
  · have hklo : ¬ k < lo := by omega
    have hif : (if k < lo then k else lo + M2.length + (k - hi)) = lo + M2.length + (k - hi) :=
      if_neg hklo
    rw [hif]
    have hT2span : spanSum (bs.take lo ++ M2) = spanSum (bs.take hi) := by
      rw [spanSum_append, hspan, take_decomp bs lo hi hlo, spanSum_append]
    have hT2len : (bs.take lo ++ M2).length = lo + M2.length := by
      rw [List.length_append, hTlen]
    have haddr : headerAddr bs k =
        HEAP_START + spanSum (bs.take lo ++ M2) + spanSum ((bs.drop hi).take (k - hi)) := by
      show HEAP_START + spanSum (bs.take k) = _
      rw [take_decomp bs hi k hkhi, spanSum_append, hT2span]
      omega
    have hnone : idxOfHeaderGo (bs.take lo ++ M2) HEAP_START (headerAddr bs k) = none := by
      apply idxGo_none_of_ge
      rw [haddr]
      omega
    have hinner : idxOfHeaderGo (bs.drop hi) (HEAP_START + spanSum (bs.take lo ++ M2))
        (headerAddr bs k) = some (k - hi) := by
      apply idxGo_complete
      · omega
      · rw [haddr]
    constructor
    · show idxOfHeaderGo ((bs.take lo ++ M2) ++ bs.drop hi) HEAP_START (headerAddr bs k) = _
      rw [idxGo_append_right _ _ _ _ hnone, hinner]
      simp only [Option.map_some', Option.some.injEq]
      omega
    · have hget : (bs.take lo ++ M2 ++ bs.drop hi)[lo + M2.length + (k - hi)]? = bs[k]? := by
        rw [List.getElem?_append_right, hT2len]
        · have harg : lo + M2.length + (k - hi) - (lo + M2.length) = k - hi := by omega
          rw [harg, List.getElem?_drop]
          congr 1
          omega
        · rw [hT2len]
          omega
      simp only [blk, List.getD_eq_getElem?_getD]
      rw [hget]

end Heap
end NBOS

namespace NBOS
namespace Heap

theorem spans_setFreeAt : ∀ (bs : List Block) (k : Nat) (f : Bool),
    (setFreeAt bs k f).map blockSpan = bs.map blockSpan := by
  intro bs
  induction bs with
  | nil => intro k f; rfl
  | cons b tl ih =>
    intro k f
    cases k with
    | zero => simp [setFreeAt, blockSpan]
    | succ j => simp [setFreeAt, ih j f]

theorem spans_updateDataAt : ∀ (bs : List Block) (k : Nat) (f : (Nat → Nat) → (Nat → Nat)),
    (updateDataAt bs k f).map blockSpan = bs.map blockSpan := by
  intro bs
  induction bs with
  | nil => intro k f; rfl
  | cons b tl ih =>
    intro k f
    cases k with
    | zero => simp [updateDataAt, blockSpan]
    | succ j => simp [updateDataAt, ih j f]

theorem idxGo_congr : ∀ (bs bs2 : List Block), bs.map blockSpan = bs2.map blockSpan →
    ∀ c a, idxOfHeaderGo bs c a = idxOfHeaderGo bs2 c a := by
  intro bs
  induction bs with
  | nil =>
    intro bs2 hmap c a
    have : bs2 = [] := by
      cases bs2 with
      | nil => rfl
      | cons x xs => cases hmap
    rw [this]
  | cons b tl ih =>
    intro bs2 hmap c a
    cases bs2 with
    | nil => cases hmap
    | cons x xs =>
      simp only [List.map_cons, List.cons.injEq] at hmap
      rw [idxOfHeaderGo, idxOfHeaderGo]
      by_cases hc : c = a
      · rw [if_pos hc, if_pos hc]
      · rw [if_neg hc, if_neg hc, hmap.1, ih xs hmap.2]

theorem spanSum_congr (bs bs2 : List Block) (hmap : bs.map blockSpan = bs2.map blockSpan) :
    spanSum bs = spanSum bs2 := by
  simp only [spanSum]
  rw [hmap]

theorem length_congr (bs bs2 : List Block) (hmap : bs.map blockSpan = bs2.map blockSpan) :
    bs.length = bs2.length := by
  have := congrArg List.length hmap
  simpa using this

theorem blk_setFreeAt_ne : ∀ (bs : List Block) (k : Nat) (f : Bool) (j : Nat), j ≠ k →
    blk (setFreeAt bs k f) j = blk bs j := by
  intro bs
  induction bs with
  | nil => intro k f j _; cases k <;> rfl
  | cons b tl ih =>
    intro k f j hne
    cases k with
    | zero =>
      cases j with
      | zero => exact absurd rfl hne
      | succ i => rfl
    | succ m =>
      cases j with
      | zero => rfl
      | succ i =>
        show blk (setFreeAt tl m f) i = blk tl i
        exact ih m f i (fun hh => hne (by rw [hh]))

theorem blk_updateDataAt_ne : ∀ (bs : List Block) (k : Nat) (f : (Nat → Nat) → (Nat → Nat))
    (j : Nat), j ≠ k → blk (updateDataAt bs k f) j = blk bs j := by
  intro bs
  induction bs with
  | nil => intro k f j _; cases k <;> rfl
  | cons b tl ih =>
    intro k f j hne
    cases k with
    | zero =>
      cases j with
      | zero => exact absurd rfl hne
      | succ i => rfl
    | succ m =>
      cases j with
      | zero => rfl
      | succ i =>
        show blk (updateDataAt tl m f) i = blk tl i
        exact ih m f i (fun hh => hne (by rw [hh]))

theorem blk_updateDataAt_self : ∀ (bs : List Block) (k : Nat) (f : (Nat → Nat) → (Nat → Nat)),
    k < bs.length →
    blk (updateDataAt bs k f) k = { blk bs k with data := f (blk bs k).data } := by
  intro bs
  induction bs with
  | nil => intro k f hk; cases hk
  | cons b tl ih =>
    intro k f hk
    cases k with
    | zero => rfl
    | succ m =>
      show blk (updateDataAt tl m f) m = _
      exact ih m f (by simpa using hk)

theorem splitBlockAt_eq : ∀ (bs : List Block) (k sz : Nat), k < bs.length →
    splitBlockAt bs k sz = bs.take k ++ splitOne (blk bs k) sz ++ bs.drop (k + 1) := by
  intro bs
  induction bs with
  | nil => intro k sz hk; cases hk
  | cons b tl ih =>
    intro k sz hk
    cases k with
    | zero => simp [splitBlockAt, blk]
    | succ m =>
      show b :: splitBlockAt tl m sz = _
      rw [ih m sz (by simpa using hk)]
      simp [blk]

theorem setFreeAt_append_add : ∀ (T R : List Block) (j : Nat) (f : Bool),
    setFreeAt (T ++ R) (T.length + j) f = T ++ setFreeAt R j f := by
  intro T
  induction T with
  | nil => intro R j f; simp
  | cons b tl ih =>
    intro R j f
    have hl : (b :: tl).length + j = (tl.length + j) + 1 := by
      simp only [List.length_cons]
      omega
    rw [hl]
    show b :: setFreeAt (tl ++ R) (tl.length + j) f = b :: (tl ++ setFreeAt R j f)
    rw [ih R j f]

theorem allocSurgery_eq (bs : List Block) (k sz : Nat) (hk : k < bs.length) :
    allocSurgery bs k sz =
      bs.take k ++ setFreeAt (splitOne (blk bs k) sz) 0 false ++ bs.drop (k + 1) := by
  unfold allocSurgery
  rw [splitBlockAt_eq bs k sz hk]
  have hlen : (bs.take k).length = k := by
    rw [List.length_take]
    omega
  have happ := setFreeAt_append_add (bs.take k) (splitOne (blk bs k) sz ++ bs.drop (k + 1))
    0 false
  simp only [hlen, Nat.add_zero] at happ
  have hsf : setFreeAt (splitOne (blk bs k) sz ++ bs.drop (k + 1)) 0 false =
      setFreeAt (splitOne (blk bs k) sz) 0 false ++ bs.drop (k + 1) := by
    obtain ⟨x, xs, hx⟩ : ∃ x xs, splitOne (blk bs k) sz = x :: xs := by
      cases hsp : splitOne (blk bs k) sz with
      | nil => exact absurd hsp (splitOne_ne_nil _ _)
      | cons x xs => exact ⟨x, xs, rfl⟩
    rw [hx]
    rfl
  rw [List.append_assoc, happ, hsf, List.append_assoc]

theorem spanSum_setFreeAt (bs : List Block) (k : Nat) (f : Bool) :
    spanSum (setFreeAt bs k f) = spanSum bs :=
  spanSum_congr _ _ (spans_setFreeAt bs k f)

end Heap
end NBOS

namespace NBOS
namespace Heap

theorem slice_one (bs : List Block) (k : Nat) (hk : k < bs.length) :
    (bs.drop k).take 1 = [blk bs k] := by
  rw [drop_eq_blk_cons bs k hk]
  rfl

theorem slice_two (bs : List Block) (k : Nat) (hk : k + 1 < bs.length) :
    (bs.drop k).take 2 = [blk bs k, blk bs (k + 1)] := by
  rw [drop_eq_blk_cons bs k (by omega)]
  show blk bs k :: (bs.drop (k + 1)).take 1 = _
  rw [slice_one bs (k + 1) hk]

theorem blockSpan_le_spanSum (bs : List Block) (k : Nat) (hk : k < bs.length) :
    blockSpan (blk bs k) ≤ spanSum bs := by
  conv_rhs => rw [← List.take_append_drop k bs]
  rw [spanSum_append, drop_eq_blk_cons bs k hk, spanSum_cons]
  omega

theorem mergeBlocks_span (b c : Block) (hbc : b.size + HEADER_SIZE + c.size < U64) :
    blockSpan (mergeBlocks b c) = blockSpan b + blockSpan c := by
  simp only [mergeBlocks, blockSpan]
  rw [Nat.mod_eq_of_lt hbc]
  omega

theorem sub64_small (a b : Nat) (hb : b ≤ a) (ha : a < U64) : sub64 a b = a - b := by
  simp only [sub64, U64] at ha ⊢
  omega

theorem splitOne_span (b : Block) (sz : Nat) (hsz : sz + HEADER_SIZE ≤ b.size)
    (hb : b.size < U64) : spanSum (splitOne b sz) = blockSpan b := by
  have hhs : HEADER_SIZE = 32 := rfl
  have h1 : sub64 b.size sz = b.size - sz := sub64_small _ _ (by omega) hb
  have h2 : sub64 (b.size - sz) HEADER_SIZE = b.size - sz - HEADER_SIZE :=
    sub64_small _ _ (by omega) (by omega)
  by_cases hc : MIN_BLOCK_SIZE ≤ sub64 (sub64 b.size sz) HEADER_SIZE
  · rw [splitOne_split b sz hc]
    rw [h1, h2] at hc ⊢
    rw [spanSum_cons, spanSum_cons]
    have h0 : spanSum ([] : List Block) = 0 := rfl
    rw [h0]
    show HEADER_SIZE + sz + (HEADER_SIZE + (b.size - sz - HEADER_SIZE) + 0) = HEADER_SIZE + b.size
    simp only [HEADER_SIZE] at hsz ⊢
    omega
  · rw [splitOne_whole b sz hc]
    simp [spanSum_cons, spanSum]

theorem mergeNextAt_merge : ∀ (bs : List Block) (k : Nat), k + 1 < bs.length →
    (blk bs (k + 1)).free = true →
    mergeNextAt bs k = bs.take k ++ [mergeBlocks (blk bs k) (blk bs (k + 1))] ++ bs.drop (k + 2) := by
  intro bs k
  induction k generalizing bs with
  | zero =>
    intro hk1 hf
    cases bs with
    | nil => simp at hk1
    | cons b tl =>
      cases tl with
      | nil => simp at hk1
      | cons c tl2 =>
        have hc : blk (b :: c :: tl2) 1 = c := rfl
        rw [hc] at hf
        show mergeNextAt (b :: c :: tl2) 0 = _
        rw [mergeNextAt]
        rw [if_pos hf]
        rfl
  | succ m ih =>
    intro hk1 hf
    cases bs with
    | nil => simp at hk1
    | cons b tl =>
      have h1 : m + 1 < tl.length := by simpa using hk1
      have h2 : blk tl (m + 1) = blk (b :: tl) (m + 2) := rfl
      show b :: mergeNextAt tl m = _
      rw [ih tl h1 (by rw [h2]; exact hf)]
      rfl

theorem mergeNextAt_id : ∀ (bs : List Block) (k : Nat),
    (bs.length ≤ k + 1 ∨ (blk bs (k + 1)).free = false) → mergeNextAt bs k = bs := by
  intro bs k
  induction k generalizing bs with
  | zero =>
    intro h
    cases bs with
    | nil => rfl
    | cons b tl =>
      cases tl with
      | nil => rfl
      | cons c tl2 =>
        have hcf : c.free = false := by
          rcases h with h | h
          · simp at h
          · exact h
        show mergeNextAt (b :: c :: tl2) 0 = _
        rw [mergeNextAt]
        rw [if_neg (by rw [hcf]; simp)]
  | succ m ih =>
    intro h
    cases bs with
    | nil => rfl
    | cons b tl =>
      show b :: mergeNextAt tl m = b :: tl
      have htl : tl.length ≤ m + 1 ∨ (blk tl (m + 1)).free = false := by
        rcases h with h | h
        · left
          simpa using h
        · right
          exact h
      rw [ih tl htl]

theorem mpfMerge : ∀ (bs : List Block) (j : Nat), j + 1 < bs.length →
    (blk bs j).free = true →
    mergePairIfPrevFree bs j =
      bs.take j ++ [mergeBlocks (blk bs j) (blk bs (j + 1))] ++ bs.drop (j + 2) := by
  intro bs j
  induction j generalizing bs with
  | zero =>
    intro hj1 hf
    cases bs with
    | nil => simp at hj1
    | cons b tl =>
      cases tl with
      | nil => simp at hj1
      | cons c tl2 =>
        have hb : blk (b :: c :: tl2) 0 = b := rfl
        rw [hb] at hf
        show mergePairIfPrevFree (b :: c :: tl2) 0 = _
        rw [mergePairIfPrevFree]
        rw [if_pos hf]
        rfl
  | succ m ih =>
    intro hj1 hf
    cases bs with
    | nil => simp at hj1
    | cons b tl =>
      have h1 : m + 1 < tl.length := by simpa using hj1
      show b :: mergePairIfPrevFree tl m = _
      rw [ih tl h1 hf]
      rfl

theorem mpfId : ∀ (bs : List Block) (j : Nat),
    (bs.length ≤ j + 1 ∨ (blk bs j).free = false) → mergePairIfPrevFree bs j = bs := by
  intro bs j
  induction j generalizing bs with
  | zero =>
    intro h
    cases bs with
    | nil => rfl
    | cons b tl =>
      cases tl with
      | nil => rfl
      | cons c tl2 =>
        have hbf : b.free = false := by
          rcases h with h | h
          · simp at h
          · exact h
        show mergePairIfPrevFree (b :: c :: tl2) 0 = _
        rw [mergePairIfPrevFree]
        rw [if_neg (by rw [hbf]; simp)]
  | succ m ih =>
    intro h
    cases bs with
    | nil => rfl
    | cons b tl =>
      show b :: mergePairIfPrevFree tl m = b :: tl
      have htl : tl.length ≤ m + 1 ∨ (blk tl m).free = false := by
        rcases h with h | h
        · left
          simpa using h
        · right
          exact h
      rw [ih tl htl]

theorem headerAddr_le (bs : List Block) (k : Nat) :
    headerAddr bs k ≤ HEAP_START + spanSum bs := by
  have hsp : spanSum (bs.take k) + spanSum (bs.drop k) = spanSum bs := by
    rw [← spanSum_append, List.take_append_drop]
  show HEAP_START + spanSum (bs.take k) ≤ _
  omega

theorem idx_at_head (bs : List Block) (k j : Nat) (M2 : List Block)
    (hk : k ≤ bs.length) (hM : M2 ≠ []) :
    idxOfHeader (bs.take k ++ M2 ++ bs.drop j) (headerAddr bs k) = some k ∧
    blk (bs.take k ++ M2 ++ bs.drop j) k = blk M2 0 := by
  have hTlen : (bs.take k).length = k := by
    rw [List.length_take]
    omega
  have hMlen : 0 < M2.length := List.length_pos.mpr hM
  have htake : (bs.take k ++ M2 ++ bs.drop j).take k = bs.take k := by
    rw [List.take_append_of_le_length, List.take_append_of_le_length, List.take_take]
    · congr 1
      omega
    · omega
    · rw [List.length_append]
      omega
  constructor
  · apply idxGo_complete
    · rw [List.length_append, List.length_append]
      omega
    · show headerAddr bs k = HEAP_START + spanSum ((bs.take k ++ M2 ++ bs.drop j).take k)
      rw [htake]
      rfl
  · have hget : (bs.take k ++ M2 ++ bs.drop j)[k]? = M2[0]? := by
      rw [List.getElem?_append_left (by rw [List.length_append]; omega),
        List.getElem?_append_right (by omega)]
      congr 1
      omega
    simp only [blk, List.getD_eq_getElem?_getD]
    rw [hget]

theorem payloadData_of_idx (h : HeapState) (p k : Nat)
    (hidx : idxOfHeader h.blocks (sub64 p HEADER_SIZE) = some k) :
    payloadData h p = (blk h.blocks k).data := by
  simp [payloadData, blockAtAddr, hidx]

end Heap
end NBOS

namespace NBOS
namespace Heap

theorem findLoop_size (bs : List Block) (sz : Nat) :
    ∀ (l : List Block) (idx : Nat) (best : Option (Nat × Nat)) (k s : Nat),
      l = bs.drop idx →
      (∀ p q, best = some (p, q) → q = (blk bs p).size ∧ sz ≤ q) →
      findLoop l idx best sz = some (k, s) →
      s = (blk bs k).size ∧ sz ≤ s := by
  intro l
  induction l with
  | nil =>
    intro idx best k s _ hbest hrun
    exact hbest k s hrun
  | cons b tl ih =>
    intro idx best k s hl hbest hrun
    have hidx : bs[idx]? = some b := by
      have h0 : (bs.drop idx)[0]? = some b := by rw [← hl]; simp
      rw [List.getElem?_drop] at h0
      simpa using h0
    have hblk : blk bs idx = b := by
      simp [blk, List.getD_eq_getElem?_getD, hidx]
    have htl : tl = bs.drop (idx + 1) := by
      have := List.tail_drop bs idx
      rw [← hl] at this
      simpa using this
    have hgood : b.free = true ∧ sz ≤ b.size → ∀ p q, some (idx, b.size) = some (p, q) →
        q = (blk bs p).size ∧ sz ≤ q := by
      intro hc p q hpq
      obtain ⟨hp, hq⟩ := Prod.mk.injEq .. ▸ Option.some.inj hpq
      subst hp
      subst hq
      exact ⟨hblk.symm ▸ rfl, hc.2⟩
    rcases best with _ | ⟨bi, bsz⟩
    · simp only [findLoop] at hrun
      by_cases hc : b.free = true ∧ sz ≤ b.size
      · rw [if_pos hc] at hrun
        by_cases hex : b.size = sz
        · rw [if_pos hex] at hrun
          obtain ⟨hk, hs⟩ := Prod.mk.injEq .. ▸ Option.some.inj hrun
          subst hk
          subst hs
          exact ⟨by rw [hblk], hc.2⟩
        · rw [if_neg hex] at hrun
          exact ih (idx + 1) (some (idx, b.size)) k s htl (hgood hc) hrun
      · rw [if_neg hc] at hrun
        exact ih (idx + 1) none k s htl (fun p q hpq => by cases hpq) hrun
    · simp only [findLoop] at hrun
      by_cases hc : b.free = true ∧ sz ≤ b.size
      · rw [if_pos hc] at hrun
        by_cases hlt2 : b.size < bsz
        · rw [if_pos hlt2] at hrun
          by_cases hex : b.size = sz
          · rw [if_pos hex] at hrun
            obtain ⟨hk, hs⟩ := Prod.mk.injEq .. ▸ Option.some.inj hrun
            subst hk
            subst hs
            exact ⟨by rw [hblk], hc.2⟩
          · rw [if_neg hex] at hrun
            exact ih (idx + 1) (some (idx, b.size)) k s htl (hgood hc) hrun
        · rw [if_neg hlt2] at hrun
          exact ih (idx + 1) (some (bi, bsz)) k s htl (fun p q hpq => hbest p q hpq) hrun
      · rw [if_neg hc] at hrun
        exact ih (idx + 1) (some (bi, bsz)) k s htl (fun p q hpq => hbest p q hpq) hrun

theorem kmalloc_some (h : HeapState) (n : Nat) (h1 : HeapState) (q : Nat)
    (hm : kmalloc h n = (h1, some q)) :
    ∃ k, k < h.blocks.length ∧ (blk h.blocks k).free = true ∧
      roundSize n ≤ (blk h.blocks k).size ∧
      h1.blocks = allocSurgery h.blocks k (roundSize n) ∧
      q = headerAddr h.blocks k + HEADER_SIZE := by
  rw [kmalloc] at hm
  split at hm
  · exact Option.noConfusion (Prod.mk.injEq .. ▸ hm).2
  · split at hm
    · exact Option.noConfusion (Prod.mk.injEq .. ▸ hm).2
    · rename_i fa
      split at hm
      · exact Option.noConfusion (Prod.mk.injEq .. ▸ hm).2
      · rename_i s hidx
        split at hm
        · exact Option.noConfusion (Prod.mk.injEq .. ▸ hm).2
        · rename_i pr k1 s1 hfind
          have hff := findLoop_free h.blocks (roundSize n) (h.blocks.drop s) s none k1 s1
            rfl (fun p q hpq => by cases hpq) hfind
          have hfs := findLoop_size h.blocks (roundSize n) (h.blocks.drop s) s none k1 s1
            rfl (fun p q hpq => by cases hpq) hfind
          simp only [kmallocCommit] at hm
          obtain ⟨hh1, hq⟩ := Prod.mk.injEq .. ▸ hm
          refine ⟨k1, hff.1, hff.2, ?_, ?_, (Option.some.inj hq).symm⟩
          · rw [← hfs.1]
            exact hfs.2
          · rw [← hh1]
            rfl

end Heap
end NBOS

namespace NBOS
namespace Heap

theorem spanSum_single (b : Block) : spanSum [b] = blockSpan b := by
  simp [spanSum]

theorem spanSum_pair (b c : Block) : spanSum [b, c] = blockSpan b + blockSpan c := by
  simp [spanSum]

/-- A used block at address `aq`, distinct from the block being freed, keeps
its address and value through the whole free surgery (mark free, forward
merge, backward merge). -/
theorem freeSurgery_tracks (bs : List Block) (kp1 : Nat)
    (hspanH : spanSum bs = HEAP_SIZE)
    (aq k : Nat) (hidxq : idxOfHeader bs aq = some k) (hkne : k ≠ kp1)
    (hqused : (blk bs k).free = false) :
    ∃ k6, idxOfHeader (freeSurgery bs kp1) aq = some k6 ∧
      blk (freeSurgery bs kp1) k6 = blk bs k := by
  have hmap4 : (setFreeAt bs kp1 true).map blockSpan = bs.map blockSpan :=
    spans_setFreeAt bs kp1 true
  have hidx4 : idxOfHeader (setFreeAt bs kp1 true) aq = some k := by
    show idxOfHeaderGo (setFreeAt bs kp1 true) HEAP_START aq = some k
    rw [idxGo_congr _ bs hmap4]
    exact hidxq
  have hblk4 : blk (setFreeAt bs kp1 true) k = blk bs k := blk_setFreeAt_ne bs kp1 true k hkne
  have hspan4 : spanSum (setFreeAt bs kp1 true) = HEAP_SIZE := by
    rw [spanSum_congr _ bs hmap4]
    exact hspanH
  have hk4 : k < (setFreeAt bs kp1 true).length := (idxGo_sound _ _ _ _ hidx4).1
  have hS2 : ∃ k5, idxOfHeader (mergeNextAt (setFreeAt bs kp1 true) kp1) aq = some k5 ∧
      blk (mergeNextAt (setFreeAt bs kp1 true) kp1) k5 = blk bs k ∧
      spanSum (mergeNextAt (setFreeAt bs kp1 true) kp1) = HEAP_SIZE ∧ k5 ≠ kp1 := by
    rcases Nat.lt_or_ge (kp1 + 1) (setFreeAt bs kp1 true).length with hl | hl
    · cases hfv : (blk (setFreeAt bs kp1 true) (kp1 + 1)).free with
      | false =>
        rw [mergeNextAt_id _ kp1 (Or.inr hfv)]
        exact ⟨k, hidx4, hblk4, hspan4, hkne⟩
      | true =>
        have hkm : k ≠ kp1 + 1 := by
          intro he
          rw [← he, hblk4, hqused] at hfv
          cases hfv
        rw [mergeNextAt_merge _ kp1 hl hfv]
        have hb1 : blockSpan (blk (setFreeAt bs kp1 true) kp1) ≤
            spanSum (setFreeAt bs kp1 true) := blockSpan_le_spanSum _ _ (by omega)
        have hb2 : blockSpan (blk (setFreeAt bs kp1 true) (kp1 + 1)) ≤
            spanSum (setFreeAt bs kp1 true) := blockSpan_le_spanSum _ _ hl
        rw [hspan4] at hb1 hb2
        have hbound : (blk (setFreeAt bs kp1 true) kp1).size + HEADER_SIZE +
            (blk (setFreeAt bs kp1 true) (kp1 + 1)).size < U64 := by
          simp only [blockSpan, HEADER_SIZE, HEAP_SIZE, U64] at hb1 hb2 ⊢
          omega
        have hspanM : spanSum [mergeBlocks (blk (setFreeAt bs kp1 true) kp1)
              (blk (setFreeAt bs kp1 true) (kp1 + 1))] =
            spanSum (((setFreeAt bs kp1 true).drop kp1).take (kp1 + 2 - kp1)) := by
          have h2 : kp1 + 2 - kp1 = 2 := by omega
          rw [h2, slice_two _ kp1 hl, spanSum_single, spanSum_pair,
            mergeBlocks_span _ _ hbound]
        have hst := surgeryStable (setFreeAt bs kp1 true) kp1 (kp1 + 2)
          [mergeBlocks (blk (setFreeAt bs kp1 true) kp1)
            (blk (setFreeAt bs kp1 true) (kp1 + 1))]
          (by omega) (by omega) hspanM k hk4 (by omega)
        simp only [List.length_singleton] at hst
        have haq : headerAddr (setFreeAt bs kp1 true) k = aq :=
          ((idxGo_sound _ _ _ _ hidx4).2).symm
        rw [haq] at hst
        refine ⟨if k < kp1 then k else kp1 + 1 + (k - (kp1 + 2)), hst.1,
          hst.2.trans hblk4, ?_, ?_⟩
        · rw [surgerySpan _ kp1 (kp1 + 2) _ (by omega) hspanM]
          exact hspan4
        · by_cases hklt : k < kp1
          · rw [if_pos hklt]
            omega
          · rw [if_neg hklt]
            omega
    · rw [mergeNextAt_id _ kp1 (Or.inl hl)]
      exact ⟨k, hidx4, hblk4, hspan4, hkne⟩
  obtain ⟨k5, hidx5, hblk5, hspan5, hk5ne⟩ := hS2
  have hk5len : k5 < (mergeNextAt (setFreeAt bs kp1 true) kp1).length :=
    (idxGo_sound _ _ _ _ hidx5).1
  show ∃ k6, idxOfHeader (mergePrevAt (mergeNextAt (setFreeAt bs kp1 true) kp1) kp1) aq =
      some k6 ∧
    blk (mergePrevAt (mergeNextAt (setFreeAt bs kp1 true) kp1) kp1) k6 = blk bs k
  cases kp1 with
  | zero => exact ⟨k5, hidx5, hblk5⟩
  | succ j =>
    show ∃ k6,
      idxOfHeader (mergePairIfPrevFree (mergeNextAt (setFreeAt bs (j + 1) true) (j + 1)) j)
        aq = some k6 ∧
      blk (mergePairIfPrevFree (mergeNextAt (setFreeAt bs (j + 1) true) (j + 1)) j) k6 =
        blk bs k
    rcases Nat.lt_or_ge (j + 1) (mergeNextAt (setFreeAt bs (j + 1) true) (j + 1)).length
      with hl | hl
    · cases hfv : (blk (mergeNextAt (setFreeAt bs (j + 1) true) (j + 1)) j).free with
      | false =>
        rw [mpfId _ j (Or.inr hfv)]
        exact ⟨k5, hidx5, hblk5⟩
      | true =>
        have hk5j : k5 ≠ j := by
          intro he
          subst he
          rw [hblk5, hqused] at hfv
          cases hfv
        rw [mpfMerge _ j hl hfv]
        have hb1 : blockSpan (blk (mergeNextAt (setFreeAt bs (j + 1) true) (j + 1)) j) ≤
            spanSum (mergeNextAt (setFreeAt bs (j + 1) true) (j + 1)) :=
          blockSpan_le_spanSum _ _ (by omega)
        have hb2 : blockSpan (blk (mergeNextAt (setFreeAt bs (j + 1) true) (j + 1)) (j + 1)) ≤
            spanSum (mergeNextAt (setFreeAt bs (j + 1) true) (j + 1)) :=
          blockSpan_le_spanSum _ _ hl
        rw [hspan5] at hb1 hb2
        have hbound : (blk (mergeNextAt (setFreeAt bs (j + 1) true) (j + 1)) j).size +
            HEADER_SIZE +
            (blk (mergeNextAt (setFreeAt bs (j + 1) true) (j + 1)) (j + 1)).size < U64 := by
          simp only [blockSpan, HEADER_SIZE, HEAP_SIZE, U64] at hb1 hb2 ⊢
          omega
        have hspanM : spanSum [mergeBlocks
              (blk (mergeNextAt (setFreeAt bs (j + 1) true) (j + 1)) j)
              (blk (mergeNextAt (setFreeAt bs (j + 1) true) (j + 1)) (j + 1))] =
            spanSum (((mergeNextAt (setFreeAt bs (j + 1) true) (j + 1)).drop j).take
              (j + 2 - j)) := by
          have h2 : j + 2 - j = 2 := by omega
          rw [h2, slice_two _ j hl, spanSum_single, spanSum_pair, mergeBlocks_span _ _ hbound]
        have hst := surgeryStable (mergeNextAt (setFreeAt bs (j + 1) true) (j + 1)) j (j + 2)
          [mergeBlocks (blk (mergeNextAt (setFreeAt bs (j + 1) true) (j + 1)) j)
            (blk (mergeNextAt (setFreeAt bs (j + 1) true) (j + 1)) (j + 1))]
          (by omega) (by omega) hspanM k5 hk5len (by omega)
        simp only [List.length_singleton] at hst
        have haq : headerAddr (mergeNextAt (setFreeAt bs (j + 1) true) (j + 1)) k5 = aq :=
          ((idxGo_sound _ _ _ _ hidx5).2).symm
        rw [haq] at hst
        exact ⟨if k5 < j then k5 else j + 1 + (k5 - (j + 2)), hst.1, hst.2.trans hblk5⟩
    · rw [mpfId _ j (Or.inl hl)]
      exact ⟨k5, hidx5, hblk5⟩

/-- kfree leaves every other used block in place: its payload address still
resolves to a block carrying the same contents. -/
theorem kfree_tracks (hh : HeapState) (p : Nat)
    (hspanH : spanSum hh.blocks = HEAP_SIZE)
    (aq k kp1 : Nat)
    (hidxp : idxOfHeader hh.blocks (sub64 p HEADER_SIZE) = some kp1)
    (hkne : k ≠ kp1)
    (hidxq : idxOfHeader hh.blocks aq = some k)
    (hqused : (blk hh.blocks k).free = false) :
    ∃ k6, idxOfHeader (kfree hh p).blocks aq = some k6 ∧
      blk (kfree hh p).blocks k6 = blk hh.blocks k := by
  rw [kfree]
  split
  · exact ⟨k, hidxq, rfl⟩
  · split
    · exact ⟨k, hidxq, rfl⟩
    · rename_i x1 kp2 hkeq
      rw [hidxp] at hkeq
      have hkp2 : kp2 = kp1 := (Option.some.inj hkeq).symm
      subst hkp2
      split
      · exact ⟨k, hidxq, rfl⟩
      · show ∃ k6, idxOfHeader (freeSurgery hh.blocks kp2) aq = some k6 ∧
          blk (freeSurgery hh.blocks kp2) k6 = blk hh.blocks k
        exact freeSurgery_tracks hh.blocks kp2 hspanH aq k hidxq hkne hqused

end Heap
end NBOS

namespace NBOS
namespace Heap

theorem sub64_addr (x : Nat) (hx : x ≤ HEAP_START + HEAP_SIZE) :
    sub64 (x + HEADER_SIZE) HEADER_SIZE = x := by
  simp only [sub64, U64, HEADER_SIZE, HEAP_START, HEAP_SIZE] at hx ⊢
  omega

theorem p_form (bs : List Block) (p kp : Nat) (hwf : spanSum bs = HEAP_SIZE) (hp64 : p < U64)
    (hp : idxOfHeader bs (sub64 p HEADER_SIZE) = some kp) :
    p = headerAddr bs kp + HEADER_SIZE ∧ kp < bs.length := by
  obtain ⟨hlt, ha⟩ := idxGo_sound bs HEAP_START (sub64 p HEADER_SIZE) kp hp
  refine ⟨?_, hlt⟩
  have hsp : spanSum (bs.take kp) + spanSum (bs.drop kp) = spanSum bs := by
    rw [← spanSum_append, List.take_append_drop]
  have hbound : spanSum (bs.take kp) ≤ HEAP_SIZE := by
    rw [← hwf]
    omega
  show p = HEAP_START + spanSum (bs.take kp) + HEADER_SIZE
  simp only [sub64, U64, HEADER_SIZE, HEAP_START, HEAP_SIZE] at ha hbound hp64 ⊢
  omega

/-- The copy-and-free tail of krealloc preserves the old payload bytes at the
new pointer: after `kmalloc` picks a fresh block, `copyBytes` moves the old
payload there and `kfree` of the old pointer does not disturb it. -/
theorem krealloc_copy_preserves (h : HeapState) (p kp n : Nat)
    (Hwf : spanSum h.blocks = HEAP_SIZE) (Hp64 : p < U64)
    (Hp : idxOfHeader h.blocks (sub64 p HEADER_SIZE) = some kp)
    (Hused : (blk h.blocks kp).free = false)
    (Hsafe : ∀ b ∈ h.blocks, b.free = true → roundSize n ≤ b.size →
      roundSize n + HEADER_SIZE ≤ b.size)
    (h1 : HeapState) (q0 : Nat) (hkm : kmalloc h n = (h1, some q0)) :
    ∀ i, i < (blk h.blocks kp).size →
      payloadData (kfree (copyBytes h1 q0 p ((blk h.blocks kp).size)) p) q0 i =
        payloadData h p i := by
  obtain ⟨hpform, hkplen⟩ := p_form h.blocks p kp Hwf Hp64 Hp
  obtain ⟨k, hklen, hkfree, hksz, hbs2, hq0⟩ := kmalloc_some h n h1 q0 hkm
  have hne : kp ≠ k := by
    intro he
    rw [he, hkfree] at Hused
    cases Hused
  have hmem : blk h.blocks k ∈ h.blocks := by
    rw [blk_eq_getElem _ _ hklen]
    exact List.getElem_mem hklen
  have hsafek := Hsafe _ hmem hkfree hksz
  have hspank := blockSpan_le_spanSum h.blocks k hklen
  rw [Hwf] at hspank
  have h64 : (blk h.blocks k).size < U64 := by
    simp only [blockSpan, HEADER_SIZE, HEAP_SIZE, U64] at hspank ⊢
    omega
  rw [allocSurgery_eq h.blocks k (roundSize n) hklen] at hbs2
  have hspanM : spanSum (setFreeAt (splitOne (blk h.blocks k) (roundSize n)) 0 false) =
      spanSum ((h.blocks.drop k).take (k + 1 - k)) := by
    have h1' : k + 1 - k = 1 := by omega
    rw [h1', slice_one h.blocks k hklen, spanSum_single, spanSum_setFreeAt,
      splitOne_span _ _ hsafek h64]
  have hstp := surgeryStable h.blocks k (k + 1)
    (setFreeAt (splitOne (blk h.blocks k) (roundSize n)) 0 false)
    (by omega) (by omega) hspanM kp hkplen (by omega)
  have haddrp : headerAddr h.blocks kp = sub64 p HEADER_SIZE :=
    ((idxGo_sound _ _ _ _ Hp).2).symm
  rw [haddrp, ← hbs2] at hstp
  obtain ⟨z, rest, hzrest, hzfree⟩ :=
    head_setFree_zero (splitOne (blk h.blocks k) (roundSize n))
      (splitOne_ne_nil _ _)
  have hMne : setFreeAt (splitOne (blk h.blocks k) (roundSize n)) 0 false ≠ [] := by
    rw [hzrest]
    exact List.cons_ne_nil z rest
  have hMlen : 0 < (setFreeAt (splitOne (blk h.blocks k) (roundSize n)) 0 false).length :=
    List.length_pos.mpr hMne
  have hkp1ne :
      (if kp < k then kp
       else k + (setFreeAt (splitOne (blk h.blocks k) (roundSize n)) 0 false).length +
         (kp - (k + 1))) ≠ k := by
    by_cases hlt : kp < k
    · rw [if_pos hlt]
      omega
    · rw [if_neg hlt]
      omega
  have hstq := idx_at_head h.blocks k (k + 1)
    (setFreeAt (splitOne (blk h.blocks k) (roundSize n)) 0 false)
    (Nat.le_of_lt hklen) hMne
  rw [← hbs2] at hstq
  have hq0addr : sub64 q0 HEADER_SIZE = headerAddr h.blocks k := by
    rw [hq0]
    apply sub64_addr
    have := headerAddr_le h.blocks k
    rw [Hwf] at this
    exact this
  have hblkM0 : blk (setFreeAt (splitOne (blk h.blocks k) (roundSize n)) 0 false) 0 = z := by
    rw [hzrest]
    rfl
  have hqfree : (blk h1.blocks k).free = false := by
    rw [hstq.2, hblkM0, hzfree]
  have hspan1 : spanSum h1.blocks = HEAP_SIZE := by
    rw [hbs2, surgerySpan h.blocks k (k + 1) _ (by omega) hspanM]
    exact Hwf
  -- the copy
  have hh2 : (copyBytes h1 q0 p ((blk h.blocks kp).size)).blocks =
      updateDataAt h1.blocks k
        (fun d => fun i => if i < (blk h.blocks kp).size then payloadData h1 p i else d i) := by
    rw [copyBytes, hq0addr, hstq.1]
  have hklen1 : k < h1.blocks.length := (idxGo_sound _ _ _ _ hstq.1).1
  have hmap3 : (updateDataAt h1.blocks k
      (fun d => fun i => if i < (blk h.blocks kp).size then payloadData h1 p i else d i)).map
        blockSpan = h1.blocks.map blockSpan := spans_updateDataAt ..
  have hidx3p : idxOfHeader (copyBytes h1 q0 p ((blk h.blocks kp).size)).blocks
      (sub64 p HEADER_SIZE) = some (if kp < k then kp
        else k + (setFreeAt (splitOne (blk h.blocks k) (roundSize n)) 0 false).length +
          (kp - (k + 1))) := by
    rw [hh2]
    show idxOfHeaderGo _ HEAP_START _ = _
    rw [idxGo_congr _ h1.blocks hmap3]
    exact hstp.1
  have hidx3q : idxOfHeader (copyBytes h1 q0 p ((blk h.blocks kp).size)).blocks
      (headerAddr h.blocks k) = some k := by
    rw [hh2]
    show idxOfHeaderGo _ HEAP_START _ = _
    rw [idxGo_congr _ h1.blocks hmap3]
    exact hstq.1
  have hblk3q : blk (copyBytes h1 q0 p ((blk h.blocks kp).size)).blocks k =
      { blk h1.blocks k with
        data := fun i => if i < (blk h.blocks kp).size then payloadData h1 p i else
          (blk h1.blocks k).data i } := by
    rw [hh2]
    exact blk_updateDataAt_self h1.blocks k _ hklen1
  have hqfree3 : (blk (copyBytes h1 q0 p ((blk h.blocks kp).size)).blocks k).free = false := by
    rw [hblk3q]
    exact hqfree
  have hspan3 : spanSum (copyBytes h1 q0 p ((blk h.blocks kp).size)).blocks = HEAP_SIZE := by
    rw [hh2, spanSum_congr _ h1.blocks hmap3]
    exact hspan1
  -- the free of the old pointer
  obtain ⟨k6, hidx6, hblk6⟩ := kfree_tracks (copyBytes h1 q0 p ((blk h.blocks kp).size)) p
    hspan3 (headerAddr h.blocks k) k
    (if kp < k then kp
     else k + (setFreeAt (splitOne (blk h.blocks k) (roundSize n)) 0 false).length +
       (kp - (k + 1)))
    hidx3p (fun he => hkp1ne (he.symm)) hidx3q hqfree3
  intro i hi
  rw [payloadData_of_idx _ q0 k6 (by rw [hq0addr]; exact hidx6)]
  rw [hblk6, hblk3q]
  show (if i < (blk h.blocks kp).size then payloadData h1 p i else _) = _
  rw [if_pos hi]
  rw [payloadData_of_idx h1 p _ hstp.1, hstp.2, payloadData_of_idx h p kp Hp]

end Heap
end NBOS

namespace NBOS
namespace Heap

/-- Executable check of the split-safety side condition: no free block has a
size in the fatal window `[sz, sz + HEADER_SIZE)` that makes `split_block`
underflow its uint64 remaining-size computation. -/
def safeB (bs : List Block) (sz : Nat) : Bool :=
  bs.all fun b => !b.free || !(Nat.ble sz b.size) || Nat.ble (sz + HEADER_SIZE) b.size

theorem safeB_ok (bs : List Block) (sz : Nat) (hs : safeB bs sz = true) :
    ∀ b ∈ bs, b.free = true → sz ≤ b.size → sz + HEADER_SIZE ≤ b.size := by
  intro b hb hfree hle
  have hall := List.all_eq_true.mp hs b hb
  rw [hfree] at hall
  simp only [Bool.not_true, Bool.false_or] at hall
  have hble : Nat.ble sz b.size = true := by
    rw [Nat.ble_eq]
    exact hle
  rw [hble] at hall
  simp only [Bool.not_true, Bool.false_or] at hall
  rw [Nat.ble_eq] at hall
  exact hall

/-- The heap after one 100-byte allocation from the initial arena: block 0 is
used with payload size 104 at payload address 4194336, block 1 is the free
remainder. -/
def c6_h : HeapState := (kmalloc heap_init 100).1

end Heap

/-- C6: for every valid allocated pointer `p` (well-formed heap: spans sum to
the arena size, `p` resolves to a used block, no free block's size falls in
the latent split_block underflow window for the rounded request) and every
`n > 0`, `krealloc(p, n)` returns `p` itself whenever `n` fits in the current
payload, and any pointer it returns either is `p` or carries the first
`min(old_size, n)` bytes previously stored at `p`. -/
theorem C6_krealloc_preserves_bytes
    (h : Heap.HeapState) (p kp n : Nat)
    (Hwf : Heap.spanSum h.blocks = Heap.HEAP_SIZE)
    (Hp64 : p < U64)
    (Hp : Heap.idxOfHeader h.blocks (sub64 p Heap.HEADER_SIZE) = some kp)
    (Hused : (Heap.blk h.blocks kp).free = false)
    (Hsafe : ∀ b ∈ h.blocks, b.free = true → Heap.roundSize n ≤ b.size →
      Heap.roundSize n + Heap.HEADER_SIZE ≤ b.size)
    (Hn : 0 < n) :
    (n ≤ (Heap.blk h.blocks kp).size → (Heap.krealloc h p n).2 = some p) ∧
    (∀ q, (Heap.krealloc h p n).2 = some q →
      q = p ∨ ∀ i, i < min ((Heap.blk h.blocks kp).size) n →
        Heap.payloadByte (Heap.krealloc h p n).1 q i = Heap.payloadByte h p i) := by
  obtain ⟨hpform, hkplen⟩ := Heap.p_form h.blocks p kp Hwf Hp64 Hp
  have hp0 : ¬ p = 0 := by
    rw [hpform]
    simp only [Heap.HEADER_SIZE]
    omega
  have hn0 : ¬ n = 0 := by omega
  have hfree' : ¬ (Heap.blk h.blocks kp).free = true := by
    rw [Hused]
    simp
  by_cases hfit : n ≤ (Heap.blk h.blocks kp).size
  · have hkr : Heap.krealloc h p n = (h, some p) := by
      rw [Heap.krealloc, if_neg hp0, if_neg hn0, Hp]
      dsimp only
      rw [if_neg hfree', if_pos hfit]
    constructor
    · intro _
      rw [hkr]
    · intro q hq
      rw [hkr] at hq
      exact Or.inl (Option.some.inj hq).symm
  · constructor
    · intro hfit'
      exact absurd hfit' hfit
    · intro q hq
      rcases hkmpair : Heap.kmalloc h n with ⟨h1, r1⟩
      cases r1 with
      | none =>
        have hkr : Heap.krealloc h p n = (h1, none) := by
          rw [Heap.krealloc, if_neg hp0, if_neg hn0, Hp]
          dsimp only
          rw [if_neg hfree', if_neg hfit, hkmpair]
        rw [hkr] at hq
        exact absurd hq (by simp)
      | some q0 =>
        have hkr : Heap.krealloc h p n =
            (Heap.kfree (Heap.copyBytes h1 q0 p ((Heap.blk h.blocks kp).size)) p,
              some q0) := by
          rw [Heap.krealloc, if_neg hp0, if_neg hn0, Hp]
          dsimp only
          rw [if_neg hfree', if_neg hfit, hkmpair]
        rw [hkr] at hq
        have hqq : q = q0 := (Option.some.inj hq).symm
        subst hqq
        right
        intro i hi
        have hold : min ((Heap.blk h.blocks kp).size) n = (Heap.blk h.blocks kp).size :=
          Nat.min_eq_left (by omega)
        rw [hold] at hi
        simp only [Heap.payloadByte]
        rw [hkr]
        exact Heap.krealloc_copy_preserves h p kp n Hwf Hp64 Hp Hused Hsafe h1 q hkmpair i hi

/-- Witness for C6: in the heap holding one 104-byte used block at payload
address 4194336, reallocating that pointer to 200 bytes satisfies every
hypothesis of the theorem concretely, and the conclusion instantiates to it. -/
theorem C6_krealloc_preserves_bytes_witness :
    (Heap.spanSum Heap.c6_h.blocks = Heap.HEAP_SIZE ∧
     Heap.idxOfHeader Heap.c6_h.blocks (sub64 4194336 Heap.HEADER_SIZE) = some 0 ∧
     (Heap.blk Heap.c6_h.blocks 0).free = false ∧ (0 : Nat) < 200) ∧
    ((200 ≤ (Heap.blk Heap.c6_h.blocks 0).size →
        (Heap.krealloc Heap.c6_h 4194336 200).2 = some 4194336) ∧
     (∀ q, (Heap.krealloc Heap.c6_h 4194336 200).2 = some q →
        q = 4194336 ∨ ∀ i, i < min ((Heap.blk Heap.c6_h.blocks 0).size) 200 →
          Heap.payloadByte (Heap.krealloc Heap.c6_h 4194336 200).1 q i =
            Heap.payloadByte Heap.c6_h 4194336 i)) := by
  refine ⟨⟨rfl, rfl, rfl, by decide⟩, ?_⟩
  exact C6_krealloc_preserves_bytes Heap.c6_h 4194336 0 200 rfl (by decide) rfl rfl
    (Heap.safeB_ok Heap.c6_h.blocks (Heap.roundSize 200) rfl) (by decide)

end NBOS

/-! ### Device manager and devfs (device.c, vfs.c)

The device registry, the devfs nodes and the VFS tree of vfs.c, with nodes
and devices held in id-keyed arenas standing for the C pointers.  The
configuration modelled is the one the kernel builds: `vfs_init` then
`devfs_init` (which creates `/dev` and mounts devfs on it); the driver list
is empty, so `device_register`'s probe loop and `device_unregister`'s detach
are no-ops, and every node's `ops->lookup` is NULL (devfs_file_ops has a
NULL lookup), so `vfs_lookup` always resolves children through the VFS tree
scan. -/

namespace NBOS
namespace Devm

def MAX_DEVICES : Nat := 128
def MAX_DEV_NAME : Nat := 32
def VFS_MAX_NAME : Nat := 64
def DEV_TYPE_CHAR : Nat := 1
def DEV_TYPE_BLOCK : Nat := 2
def VFS_TYPE_DIR : Nat := 2
def VFS_TYPE_CHARDEV : Nat := 3
def VFS_TYPE_BLOCKDEV : Nat := 4

/-- A VfsNode.  `mount` stands for `node->mount->root`: the id of the mounted
filesystem's root node. -/
structure VNode where
  name : List Char
  vtype : Nat
  parent : Option Nat
  children : List Nat
  mount : Option Nat
  private_data : Option Nat
  dev_major : Nat
  dev_minor : Nat
  deriving DecidableEq

/-- A Device struct.  `dtype` is the C field `type`. -/
structure Device where
  name : List Char
  dtype : Nat
  major : Nat
  minor : Nat
  vfs_node : Option Nat
  deriving DecidableEq

structure DevState where
  nodes : List (Nat × VNode)
  nextId : Nat
  root_node : Option Nat
  devfs_root : Option Nat
  device_list : List Nat
  devices : List (Nat × Device)
  device_count : Nat
  deriving DecidableEq

def lookupA {α : Type} : List (Nat × α) → Nat → Option α
  | [], _ => none
  | (j, v) :: rest, i => if j = i then some v else lookupA rest i

def setA {α : Type} : List (Nat × α) → Nat → α → List (Nat × α)
  | [], _, _ => []
  | (j, w) :: rest, i, v => if j = i then (j, v) :: rest else (j, w) :: setA rest i v

def eraseA {α : Type} : List (Nat × α) → Nat → List (Nat × α)
  | [], _ => []
  | (j, w) :: rest, i => if j = i then rest else (j, w) :: eraseA rest i

def eraseFirst : List Nat → Nat → List Nat
  | [], _ => []
  | x :: rest, i => if x = i then rest else x :: eraseFirst rest i

def getNode (s : DevState) (i : Nat) : Option VNode := lookupA s.nodes i

def setNode (s : DevState) (i : Nat) (v : VNode) : DevState :=
  { s with nodes := setA s.nodes i v }

def getDevice (s : DevState) (i : Nat) : Option Device := lookupA s.devices i

def setDevice (s : DevState) (i : Nat) (d : Device) : DevState :=
  { s with devices := setA s.devices i d }

/-- vfs.c `vfs_create_node`: a fresh node, name copied with `strncpy_safe`
into a `VFS_MAX_NAME` buffer (truncated to `VFS_MAX_NAME - 1` characters),
ref_count 1, everything else zeroed. -/
def vfs_create_node (s : DevState) (name : List Char) (vtype : Nat) : DevState × Nat :=
  let node : VNode :=
    { name := name.take (VFS_MAX_NAME - 1), vtype := vtype, parent := none,
      children := [], mount := none, private_data := none, dev_major := 0, dev_minor := 0 }
  ({ s with nodes := (s.nextId, node) :: s.nodes, nextId := s.nextId + 1 }, s.nextId)

/-- vfs.c `vfs_add_child`: refused unless the parent is a directory; sets the
child's parent and prepends the child to the parent's list. -/
def vfs_add_child (s : DevState) (parentId childId : Nat) : DevState :=
  match getNode s parentId, getNode s childId with
  | some pn, some cn =>
    if pn.vtype = VFS_TYPE_DIR then
      let s1 := setNode s childId { cn with parent := some parentId }
      match getNode s1 parentId with
      | some pn1 => setNode s1 parentId { pn1 with children := childId :: pn1.children }
      | none => s1
    else s
  | _, _ => s

/-- vfs.c `vfs_remove_child`: unlink the first matching child, clear its
parent pointer. -/
def vfs_remove_child (s : DevState) (parentId childId : Nat) : DevState :=
  match getNode s parentId with
  | none => s
  | some pn =>
    if childId ∈ pn.children then
      let s1 := setNode s parentId { pn with children := eraseFirst pn.children childId }
      match getNode s1 childId with
      | some cn => setNode s1 childId { cn with parent := none }
      | none => s1
    else s

/-- `vfs_node_unref` on a node whose ref_count is 1 (devfs nodes are created
with ref_count 1 and nothing increments it): the node is destroyed. -/
def vfs_node_unref_destroy (s : DevState) (i : Nat) : DevState :=
  { s with nodes := eraseA s.nodes i }

/-- The child scan of `vfs_lookup`: first child whose name equals the
component (`strlen(c->name) == len && strncmp(c->name, p, len) == 0`). -/
def findChild (s : DevState) : List Nat → List Char → Option Nat
  | [], _ => none
  | cid :: rest, comp =>
    match getNode s cid with
    | some cn => if cn.name = comp then some cid else findChild s rest comp
    | none => findChild s rest comp

/-- The component walk of `vfs_lookup`: `.` is skipped, `..` moves to the
parent when there is one, then the mount redirect
(`if (current->mount) current = current->mount->root`), then the child scan.
The `ops->lookup` branch is absent: every node of the modelled configuration
has a NULL lookup op. -/
def lookupLoop (s : DevState) : Nat → List (List Char) → Option Nat
  | cur, [] => some cur
  | cur, comp :: rest =>
    if comp = ['.'] then lookupLoop s cur rest
    else if comp = ['.', '.'] then
      match getNode s cur with
      | none => none
      | some nd =>
        match nd.parent with
        | some par => lookupLoop s par rest
        | none => lookupLoop s cur rest
    else
      match getNode s cur with
      | none => none
      | some nd =>
        match (match nd.mount with
               | some mroot => getNode s mroot
               | none => some nd) with
        | none => none
        | some nd2 =>
          match findChild s nd2.children comp with
          | some cid => lookupLoop s cid rest
          | none => none

/-- The component scanner of `vfs_lookup`'s while-loop: components are the
maximal runs of non-slash characters, empty runs skipped. -/
def pathCompsGo : List Char → List Char → List (List Char)
  | [], acc => if acc.isEmpty then [] else [acc.reverse]
  | c :: rest, acc =>
    if c = '/' then
      if acc.isEmpty then pathCompsGo rest [] else acc.reverse :: pathCompsGo rest []
    else pathCompsGo rest (c :: acc)

/-- vfs.c `vfs_lookup`: empty path or missing root or relative path give
NULL; otherwise walk the components from the root. -/
def vfs_lookup (s : DevState) (path : List Char) : Option Nat :=
  match path with
  | [] => none
  | c :: rest =>
    match s.root_node with
    | none => none
    | some rt => if c = '/' then lookupLoop s rt (pathCompsGo rest []) else none

/-- device.c `device_find_by_name`: linear scan of the registry comparing
names with strcmp. -/
def find_by_name_go (s : DevState) : List Nat → List Char → Option Nat
  | [], _ => none
  | d :: rest, nm =>
    match getDevice s d with
    | some dv => if dv.name = nm then some d else find_by_name_go s rest nm
    | none => find_by_name_go s rest nm

def device_find_by_name (s : DevState) (nm : List Char) : Option Nat :=
  find_by_name_go s s.device_list nm

/-- device.c `device_find_by_number`: linear scan comparing the
(major, minor) pair. -/
def find_by_number_go (s : DevState) : List Nat → Nat → Nat → Option Nat
  | [], _, _ => none
  | d :: rest, mj, mn =>
    match getDevice s d with
    | some dv =>
      if dv.major = mj ∧ dv.minor = mn then some d else find_by_number_go s rest mj mn
    | none => find_by_number_go s rest mj mn

def device_find_by_number (s : DevState) (mj mn : Nat) : Option Nat :=
  find_by_number_go s s.device_list mj mn

/-- The VFS type `devfs_create_node` picks from the device type. -/
def devfs_vtype (dv : Device) : Nat :=
  if dv.dtype = DEV_TYPE_CHAR then VFS_TYPE_CHARDEV
  else if dv.dtype = DEV_TYPE_BLOCK then VFS_TYPE_BLOCKDEV
  else VFS_TYPE_CHARDEV

/-- The node-field writes of `devfs_create_node`: device numbers and
`private_data`. -/
def devfs_set_fields (s : DevState) (nid : Nat) (dv : Device) (devId : Nat) : DevState :=
  match getNode s nid with
  | some nd => setNode s nid
      { nd with
        dev_major := dv.major
        dev_minor := dv.minor
        private_data := some devId }
  | none => s

/-- `dev->vfs_node = node` at the end of `devfs_create_node`. -/
def devfs_attach (s : DevState) (devId nid : Nat) : DevState :=
  match getDevice s devId with
  | some dv2 => setDevice s devId { dv2 with vfs_node := some nid }
  | none => s

/-- device.c `devfs_create_node`: pick the VFS type from the device type,
create the node, set its device numbers and `private_data`, add it under
devfs_root, record it in `dev->vfs_node`. -/
def devfs_create_node (s : DevState) (devId : Nat) : DevState :=
  match getDevice s devId, s.devfs_root with
  | some dv, some dr =>
      devfs_attach
        (vfs_add_child
          (devfs_set_fields (vfs_create_node s dv.name (devfs_vtype dv)).1
            (vfs_create_node s dv.name (devfs_vtype dv)).2 dv devId)
          dr (vfs_create_node s dv.name (devfs_vtype dv)).2)
        devId (vfs_create_node s dv.name (devfs_vtype dv)).2
  | _, _ => s

/-- The `vfs_remove_child` step of `devfs_remove_node`, guarded by
devfs_root being present. -/
def devfs_unlink (s : DevState) (nid : Nat) : DevState :=
  match s.devfs_root with
  | some dr => vfs_remove_child s dr nid
  | none => s

/-- `dev->vfs_node = NULL` at the end of `devfs_remove_node`. -/
def devfs_detach (s : DevState) (devId : Nat) : DevState :=
  match getDevice s devId with
  | some dv2 => setDevice s devId { dv2 with vfs_node := none }
  | none => s

/-- device.c `devfs_remove_node`: unlink the node from /dev, drop its last
reference (destroying it), clear `dev->vfs_node`. -/
def devfs_remove_node (s : DevState) (devId : Nat) : DevState :=
  match getDevice s devId with
  | none => s
  | some dv =>
    match dv.vfs_node with
    | none => s
    | some nid => devfs_detach (vfs_node_unref_destroy (devfs_unlink s nid) nid) devId

/-- device.c `device_register`: NULL check, capacity check, duplicate check
by NAME ONLY, then prepend to the registry and create the devfs node.  The
driver probe loop is a no-op: no driver is registered in the modelled
configuration. -/
def device_register (s : DevState) (devId : Nat) : DevState × Int :=
  match getDevice s devId with
  | none => (s, -1)
  | some dv =>
    if MAX_DEVICES ≤ s.device_count then (s, -2)
    else
      match device_find_by_name s dv.name with
      | some _ => (s, -3)
      | none =>
        let s1 := { s with
                    device_list := devId :: s.device_list
                    device_count := s.device_count + 1 }
        (devfs_create_node s1 devId, 0)

/-- device.c `device_unregister`: unlink from the registry (decrementing the
count only when found), remove the devfs node.  Driver detach is a no-op. -/
def device_unregister (s : DevState) (devId : Nat) : DevState × Int :=
  match getDevice s devId with
  | none => (s, -1)
  | some _ =>
    let s1 := { s with
                device_list := eraseFirst s.device_list devId
                device_count := if devId ∈ s.device_list then s.device_count - 1
                  else s.device_count }
    (devfs_remove_node s1 devId, 0)

/-- vfs.c `vfs_init`: the root directory node `/`. -/
def vfs_init_state : DevState :=
  let s0 : DevState :=
    { nodes := [], nextId := 0, root_node := none, devfs_root := none,
      device_list := [], devices := [], device_count := 0 }
  let pr := vfs_create_node s0 ['/'] VFS_TYPE_DIR
  { pr.1 with root_node := some pr.2 }

/-- device.c `devfs_init`: create the `/dev` directory under the root, then
`vfs_mount(NULL, "/dev", "devfs")`: the mount point is `vfs_lookup("/dev")`,
`devfs_mount` allocates the devfs root, and the mount is linked into the
mount point node. -/
def devfs_init_state (s : DevState) : DevState :=
  match s.root_node with
  | none => s
  | some rt =>
    let pr := vfs_create_node s ['d', 'e', 'v'] VFS_TYPE_DIR
    let s2 := vfs_add_child pr.1 rt pr.2
    match vfs_lookup s2 ['/', 'd', 'e', 'v'] with
    | none => s2
    | some mp =>
      let pr2 := vfs_create_node s2 ['d', 'e', 'v'] VFS_TYPE_DIR
      let s4 := { pr2.1 with devfs_root := some pr2.2 }
      match getNode s4 mp with
      | none => s4
      | some mpn => setNode s4 mp { mpn with mount := some pr2.2 }

/-- The boot sequence `vfs_init(); device_init()` (device_init resets the
empty lists and runs devfs_init). -/
def device_init_state : DevState := devfs_init_state vfs_init_state

/-- A caller-allocated Device struct placed in the arena; the name respects
the `char[MAX_DEV_NAME]` bound of the C struct. -/
def mkDevice (s : DevState) (id : Nat) (name : List Char) (dt mj mn : Nat) : DevState :=
  { s with devices := (id, ⟨name, dt, mj, mn, none⟩) :: s.devices }

end Devm
end NBOS

namespace NBOS
namespace Devm

theorem pathCompsGo_no_slash : ∀ (nm acc : List Char), '/' ∉ nm →
    pathCompsGo nm acc = if acc.reverse ++ nm = [] then [] else [acc.reverse ++ nm] := by
  intro nm
  induction nm with
  | nil =>
    intro acc _
    by_cases hacc : acc = []
    · subst hacc
      rfl
    · rw [pathCompsGo]
      have h1 : acc.isEmpty = false := by
        simpa [List.isEmpty_iff] using hacc
      rw [h1]
      have h2 : ¬ (acc.reverse ++ [] = []) := by simp [hacc]
      rw [if_neg h2]
      simp
  | cons c rest ih =>
    intro acc hns
    have hc : ¬ c = '/' := fun h => hns (by rw [← h]; exact List.mem_cons_self c rest)
    have hrest : '/' ∉ rest := fun h => hns (List.mem_cons_of_mem c h)
    rw [pathCompsGo, if_neg hc, ih (c :: acc) hrest]
    have h1 : ¬ ((c :: acc).reverse ++ rest = []) := by simp
    have h2 : ¬ (acc.reverse ++ c :: rest = []) := by simp
    rw [if_neg h1, if_neg h2]
    simp

theorem pathComps_dev (nm : List Char) (hns : '/' ∉ nm) (hne : nm ≠ []) :
    pathCompsGo ('d' :: 'e' :: 'v' :: '/' :: nm) [] = [['d', 'e', 'v'], nm] := by
  have h1 : pathCompsGo ('d' :: 'e' :: 'v' :: '/' :: nm) [] =
      ['d', 'e', 'v'] :: pathCompsGo nm [] := rfl
  rw [h1, pathCompsGo_no_slash nm [] hns]
  rw [if_neg (by simpa using hne)]
  rfl

/-- The C7 scenario states. -/
def c7_bad := device_register (mkDevice device_init_state 100 ['a', '/', 'b']
  DEV_TYPE_CHAR 5 0) 100

end Devm

/-- C7 (counterexample to the literal claim): a registered device whose name
`a/b` is not a single path component.  Registration succeeds (code 0), the
device is in the registry and its devfs node (id 3) carries it as
private_data, yet `vfs_lookup("/dev/a/b")` returns NULL, because the lookup
splits the path at every slash while `devfs_create_node` stored the whole
name in one node. -/
theorem C7_dev_lookup_counterexample :
    Devm.c7_bad.2 = 0 ∧
    Devm.c7_bad.1.device_list = [100] ∧
    (Devm.getNode Devm.c7_bad.1 3).map (fun nd => (nd.name, nd.private_data)) =
      some (['a', '/', 'b'], some 100) ∧
    Devm.vfs_lookup Devm.c7_bad.1 ['/', 'd', 'e', 'v', '/', 'a', '/', 'b'] = none :=
  ⟨rfl, rfl, rfl, rfl⟩

set_option maxHeartbeats 4000000 in
/-- C7 (amended): for a device name that is one proper path component —
nonempty, no slash, not `.` or `..`, within the `char[MAX_DEV_NAME]` bound —
registration succeeds, `vfs_lookup("/dev/" + N)` returns exactly the devfs
node created for the device (id 3, private_data the device), and after
`device_unregister` the same lookup returns NULL. -/
theorem C7_dev_lookup (nm : List Char) (dt mj mn : Nat)
    (hne : nm ≠ []) (hns : '/' ∉ nm) (hd1 : nm ≠ ['.']) (hd2 : nm ≠ ['.', '.'])
    (hlen : nm.length < Devm.MAX_DEV_NAME) :
    (Devm.device_register (Devm.mkDevice Devm.device_init_state 100 nm dt mj mn) 100).2
      = 0 ∧
    Devm.vfs_lookup
      (Devm.device_register (Devm.mkDevice Devm.device_init_state 100 nm dt mj mn) 100).1
      ('/' :: 'd' :: 'e' :: 'v' :: '/' :: nm) = some 3 ∧
    (Devm.getNode
      (Devm.device_register (Devm.mkDevice Devm.device_init_state 100 nm dt mj mn) 100).1
      3).map (fun nd => nd.private_data) = some (some 100) ∧
    Devm.vfs_lookup
      (Devm.device_unregister
        (Devm.device_register (Devm.mkDevice Devm.device_init_state 100 nm dt mj mn)
          100).1 100).1
      ('/' :: 'd' :: 'e' :: 'v' :: '/' :: nm) = none := by
  have htake : nm.take (Devm.VFS_MAX_NAME - 1) = nm := by
    apply List.take_of_length_le
    simp only [Devm.MAX_DEV_NAME] at hlen
    simp only [Devm.VFS_MAX_NAME]
    omega
  refine ⟨rfl, ?_, rfl, ?_⟩
  · have hL : Devm.vfs_lookup
        (Devm.device_register (Devm.mkDevice Devm.device_init_state 100 nm dt mj mn)
          100).1 ('/' :: 'd' :: 'e' :: 'v' :: '/' :: nm) =
        Devm.lookupLoop
          (Devm.device_register (Devm.mkDevice Devm.device_init_state 100 nm dt mj mn)
            100).1 0 (Devm.pathCompsGo ('d' :: 'e' :: 'v' :: '/' :: nm) []) := rfl
    rw [hL, Devm.pathComps_dev nm hns hne]
    have h2 : Devm.lookupLoop
        (Devm.device_register (Devm.mkDevice Devm.device_init_state 100 nm dt mj mn)
          100).1 0 [['d', 'e', 'v'], nm] =
        Devm.lookupLoop
          (Devm.device_register (Devm.mkDevice Devm.device_init_state 100 nm dt mj mn)
            100).1 1 [nm] := rfl
    rw [h2, Devm.lookupLoop, if_neg hd1, if_neg hd2]
    obtain ⟨nd1, hnd1, hm1⟩ : ∃ nd, Devm.getNode
        (Devm.device_register (Devm.mkDevice Devm.device_init_state 100 nm dt mj mn)
          100).1 1 = some nd ∧ nd.mount = some 2 := ⟨_, rfl, rfl⟩
    obtain ⟨nd2, hnd2, hch2⟩ : ∃ nd, Devm.getNode
        (Devm.device_register (Devm.mkDevice Devm.device_init_state 100 nm dt mj mn)
          100).1 2 = some nd ∧ nd.children = [3] := ⟨_, rfl, rfl⟩
    obtain ⟨cn, hcn, hname⟩ : ∃ cn, Devm.getNode
        (Devm.device_register (Devm.mkDevice Devm.device_init_state 100 nm dt mj mn)
          100).1 3 = some cn ∧ cn.name = nm.take (Devm.VFS_MAX_NAME - 1) := ⟨_, rfl, rfl⟩
    have h4 : Devm.findChild
        (Devm.device_register (Devm.mkDevice Devm.device_init_state 100 nm dt mj mn)
          100).1 [3] nm = some 3 := by
      simp only [Devm.findChild, hcn, hname, htake]
      simp
    simp only [hnd1, hm1, hnd2, hch2, h4, Devm.lookupLoop]
  · have hL : Devm.vfs_lookup
        (Devm.device_unregister
          (Devm.device_register (Devm.mkDevice Devm.device_init_state 100 nm dt mj mn)
            100).1 100).1 ('/' :: 'd' :: 'e' :: 'v' :: '/' :: nm) =
        Devm.lookupLoop
          (Devm.device_unregister
            (Devm.device_register (Devm.mkDevice Devm.device_init_state 100 nm dt mj mn)
              100).1 100).1 0 (Devm.pathCompsGo ('d' :: 'e' :: 'v' :: '/' :: nm) []) := rfl
    rw [hL, Devm.pathComps_dev nm hns hne]
    have h2 : Devm.lookupLoop
        (Devm.device_unregister
          (Devm.device_register (Devm.mkDevice Devm.device_init_state 100 nm dt mj mn)
            100).1 100).1 0 [['d', 'e', 'v'], nm] =
        Devm.lookupLoop
          (Devm.device_unregister
            (Devm.device_register (Devm.mkDevice Devm.device_init_state 100 nm dt mj mn)
              100).1 100).1 1 [nm] := rfl
    rw [h2, Devm.lookupLoop, if_neg hd1, if_neg hd2]
    obtain ⟨nd1, hnd1, hm1⟩ : ∃ nd, Devm.getNode
        (Devm.device_unregister
          (Devm.device_register (Devm.mkDevice Devm.device_init_state 100 nm dt mj mn)
            100).1 100).1 1 = some nd ∧ nd.mount = some 2 := ⟨_, rfl, rfl⟩
    obtain ⟨nd2, hnd2, hch⟩ : ∃ nd, Devm.getNode
        (Devm.device_unregister
          (Devm.device_register (Devm.mkDevice Devm.device_init_state 100 nm dt mj mn)
            100).1 100).1 2 = some nd ∧ nd.children = [] := ⟨_, rfl, rfl⟩
    simp only [hnd1, hm1, hnd2, hch, Devm.findChild]

/-- Witness for C7 (amended) at the concrete device name `tty0`, a character
device with numbers (4, 0). -/
theorem C7_dev_lookup_witness :
    ((['t', 't', 'y', '0'] : List Char) ≠ [] ∧ '/' ∉ (['t', 't', 'y', '0'] : List Char) ∧
      (['t', 't', 'y', '0'] : List Char) ≠ ['.'] ∧
      (['t', 't', 'y', '0'] : List Char) ≠ ['.', '.'] ∧
      (['t', 't', 'y', '0'] : List Char).length < Devm.MAX_DEV_NAME) ∧
    ((Devm.device_register
        (Devm.mkDevice Devm.device_init_state 100 ['t', 't', 'y', '0'] 1 4 0) 100).2
      = 0 ∧
     Devm.vfs_lookup
      (Devm.device_register
        (Devm.mkDevice Devm.device_init_state 100 ['t', 't', 'y', '0'] 1 4 0) 100).1
      ('/' :: 'd' :: 'e' :: 'v' :: '/' :: ['t', 't', 'y', '0']) = some 3 ∧
     (Devm.getNode
      (Devm.device_register
        (Devm.mkDevice Devm.device_init_state 100 ['t', 't', 'y', '0'] 1 4 0) 100).1
      3).map (fun nd => nd.private_data) = some (some 100) ∧
     Devm.vfs_lookup
      (Devm.device_unregister
        (Devm.device_register
          (Devm.mkDevice Devm.device_init_state 100 ['t', 't', 'y', '0'] 1 4 0) 100).1
        100).1
      ('/' :: 'd' :: 'e' :: 'v' :: '/' :: ['t', 't', 'y', '0']) = none) :=
  ⟨⟨by decide, by decide, by decide, by decide, by decide⟩,
    C7_dev_lookup ['t', 't', 'y', '0'] 1 4 0 (by decide) (by decide) (by decide)
      (by decide) (by decide)⟩

end NBOS

namespace NBOS
namespace Devm

def devName (s : DevState) (i : Nat) : Option (List Char) := (getDevice s i).map (·.name)

/-- The registry invariant the spec asserts for names: all registered devices
have pairwise distinct names. -/
def namesOK (s : DevState) : Prop :=
  s.device_list.Pairwise (fun a b => devName s a ≠ devName s b)

theorem lookupA_setA_ne {α : Type} : ∀ (l : List (Nat × α)) (i : Nat) (v : α) (j : Nat),
    i ≠ j → lookupA (setA l i v) j = lookupA l j := by
  intro l
  induction l with
  | nil => intro i v j _; rfl
  | cons p rest ih =>
    intro i v j hij
    obtain ⟨k, w⟩ := p
    rw [setA]
    by_cases hki : k = i
    · subst hki
      rw [if_pos rfl, lookupA, lookupA, if_neg (fun h => hij h), if_neg (fun h => hij h)]
    · rw [if_neg hki, lookupA, lookupA]
      by_cases hkj : k = j
      · rw [if_pos hkj, if_pos hkj]
      · rw [if_neg hkj, if_neg hkj, ih i v j hij]

theorem lookupA_setA_self {α : Type} : ∀ (l : List (Nat × α)) (i : Nat) (v w : α),
    lookupA l i = some w → lookupA (setA l i v) i = some v := by
  intro l
  induction l with
  | nil => intro i v w h; cases h
  | cons p rest ih =>
    intro i v w h
    obtain ⟨k, x⟩ := p
    rw [setA]
    by_cases hki : k = i
    · subst hki
      rw [if_pos rfl, lookupA, if_pos rfl]
    · rw [lookupA, if_neg hki] at h
      rw [if_neg hki, lookupA, if_neg hki, ih i v w h]

theorem devName_setDevice_same (s : DevState) (i : Nat) (dv d2 : Device)
    (hget : getDevice s i = some dv) (hname : d2.name = dv.name) (j : Nat) :
    devName (setDevice s i d2) j = devName s j := by
  by_cases hij : i = j
  · subst hij
    show (lookupA (setA s.devices i d2) i).map (·.name) = (lookupA s.devices i).map (·.name)
    rw [lookupA_setA_self s.devices i d2 dv hget]
    rw [show lookupA s.devices i = some dv from hget]
    show some d2.name = some dv.name
    rw [hname]
  · show (lookupA (setA s.devices i d2) j).map (·.name) = (lookupA s.devices j).map (·.name)
    rw [lookupA_setA_ne s.devices i d2 j hij]

theorem devices_add_child (s : DevState) (a b : Nat) :
    (vfs_add_child s a b).devices = s.devices := by
  rw [vfs_add_child]
  split
  · split
    · dsimp only
      split
      · rfl
      · rfl
    · rfl
  · rfl

theorem devlist_add_child (s : DevState) (a b : Nat) :
    (vfs_add_child s a b).device_list = s.device_list := by
  rw [vfs_add_child]
  split
  · split
    · dsimp only
      split
      · rfl
      · rfl
    · rfl
  · rfl

theorem devices_remove_child (s : DevState) (a b : Nat) :
    (vfs_remove_child s a b).devices = s.devices := by
  rw [vfs_remove_child]
  split
  · rfl
  · split
    · dsimp only
      split
      · rfl
      · rfl
    · rfl

theorem devlist_remove_child (s : DevState) (a b : Nat) :
    (vfs_remove_child s a b).device_list = s.device_list := by
  rw [vfs_remove_child]
  split
  · rfl
  · split
    · dsimp only
      split
      · rfl
      · rfl
    · rfl

theorem devices_set_fields (s : DevState) (nid : Nat) (dv : Device) (devId : Nat) :
    (devfs_set_fields s nid dv devId).devices = s.devices := by
  rw [devfs_set_fields]
  split
  · rfl
  · rfl

theorem devlist_set_fields (s : DevState) (nid : Nat) (dv : Device) (devId : Nat) :
    (devfs_set_fields s nid dv devId).device_list = s.device_list := by
  rw [devfs_set_fields]
  split
  · rfl
  · rfl

theorem devName_of_devices_eq (s t : DevState) (h : t.devices = s.devices) (j : Nat) :
    devName t j = devName s j := by
  unfold devName getDevice
  rw [h]

theorem devName_attach (s : DevState) (i nid j : Nat) :
    devName (devfs_attach s i nid) j = devName s j := by
  rw [devfs_attach]
  split
  · rename_i dv2 hdv2
    exact devName_setDevice_same s i dv2 { dv2 with vfs_node := some nid } hdv2 rfl j
  · rfl

theorem devName_detach (s : DevState) (i j : Nat) :
    devName (devfs_detach s i) j = devName s j := by
  rw [devfs_detach]
  split
  · rename_i dv2 hdv2
    exact devName_setDevice_same s i dv2 { dv2 with vfs_node := none } hdv2 rfl j
  · rfl

theorem devlist_setDevice (s : DevState) (i : Nat) (d : Device) :
    (setDevice s i d).device_list = s.device_list := rfl

theorem devlist_attach (s : DevState) (i nid : Nat) :
    (devfs_attach s i nid).device_list = s.device_list := by
  rw [devfs_attach]
  split
  · rfl
  · rfl

theorem devlist_detach (s : DevState) (i : Nat) :
    (devfs_detach s i).device_list = s.device_list := by
  rw [devfs_detach]
  split
  · rfl
  · rfl

theorem devName_devfs_create (s : DevState) (i j : Nat) :
    devName (devfs_create_node s i) j = devName s j := by
  rw [devfs_create_node]
  split
  · rename_i dv dr hdv hdr
    rw [devName_attach]
    rw [devName_of_devices_eq _ _ (devices_add_child _ dr _) j]
    rw [devName_of_devices_eq _ _ (devices_set_fields _ _ dv i) j]
    rfl
  · rfl

theorem devlist_devfs_create (s : DevState) (i : Nat) :
    (devfs_create_node s i).device_list = s.device_list := by
  rw [devfs_create_node]
  split
  · rename_i dv dr hdv hdr
    rw [devlist_attach, devlist_add_child, devlist_set_fields]
    rfl
  · rfl

theorem devices_unlink (s : DevState) (nid : Nat) :
    (devfs_unlink s nid).devices = s.devices := by
  rw [devfs_unlink]
  split
  · rw [devices_remove_child]
  · rfl

theorem devlist_unlink (s : DevState) (nid : Nat) :
    (devfs_unlink s nid).device_list = s.device_list := by
  rw [devfs_unlink]
  split
  · rw [devlist_remove_child]
  · rfl

theorem devName_devfs_remove (s : DevState) (i j : Nat) :
    devName (devfs_remove_node s i) j = devName s j := by
  rw [devfs_remove_node]
  split
  · rfl
  · rename_i dv hdv
    split
    · rfl
    · rename_i nid hnid
      rw [devName_detach]
      rw [devName_of_devices_eq (devfs_unlink s nid)
        (vfs_node_unref_destroy (devfs_unlink s nid) nid) rfl j]
      rw [devName_of_devices_eq s (devfs_unlink s nid) (devices_unlink s nid) j]

theorem devlist_devfs_remove (s : DevState) (i : Nat) :
    (devfs_remove_node s i).device_list = s.device_list := by
  rw [devfs_remove_node]
  split
  · rfl
  · rename_i dv hdv
    split
    · rfl
    · rename_i nid hnid
      rw [devlist_detach]
      show (devfs_unlink s nid).device_list = s.device_list
      rw [devlist_unlink]

theorem find_none_no_name (s : DevState) : ∀ (l : List Nat) (nm : List Char),
    find_by_name_go s l nm = none → ∀ b ∈ l, devName s b ≠ some nm := by
  intro l
  induction l with
  | nil => intro nm _ b hb; cases hb
  | cons d rest ih =>
    intro nm h b hb
    rw [find_by_name_go] at h
    rcases List.mem_cons.mp hb with hb1 | hb1
    · subst hb1
      cases hget : getDevice s b with
      | none => simp [devName, hget]
      | some dv =>
        rw [hget] at h
        dsimp only at h
        by_cases heq : dv.name = nm
        · rw [if_pos heq] at h
          cases h
        · rw [if_neg heq] at h
          simp [devName, hget]
          exact heq
    · cases hget : getDevice s d with
      | none =>
        rw [hget] at h
        dsimp only at h
        exact ih nm h b hb1
      | some dv =>
        rw [hget] at h
        dsimp only at h
        by_cases heq : dv.name = nm
        · rw [if_pos heq] at h
          cases h
        · rw [if_neg heq] at h
          exact ih nm h b hb1

theorem eraseFirst_sublist : ∀ (l : List Nat) (i : Nat), (eraseFirst l i).Sublist l := by
  intro l
  induction l with
  | nil => intro i; exact List.Sublist.refl []
  | cons x rest ih =>
    intro i
    rw [eraseFirst]
    by_cases hx : x = i
    · rw [if_pos hx]
      exact List.sublist_cons_self x rest
    · rw [if_neg hx]
      exact List.Sublist.cons₂ x (ih i)

theorem namesOK_register (s : DevState) (i : Nat) (h : namesOK s) :
    namesOK (device_register s i).1 := by
  rw [device_register]
  split
  · exact h
  · rename_i dv hdv
    split
    · exact h
    · split
      · exact h
      · rename_i hfind
        show namesOK (devfs_create_node
          { s with
            device_list := i :: s.device_list
            device_count := s.device_count + 1 } i)
        have hA : ∀ x, devName (devfs_create_node
            { s with
              device_list := i :: s.device_list
              device_count := s.device_count + 1 } i) x = devName s x := by
          intro x
          rw [devName_devfs_create]
          rfl
        unfold namesOK
        rw [devlist_devfs_create]
        show List.Pairwise _ (i :: s.device_list)
        refine List.Pairwise.cons ?_ ?_
        · intro b hb
          rw [hA i, hA b]
          intro hcontra
          have hni : devName s i = some dv.name := by
            simp [devName, hdv]
          exact find_none_no_name s s.device_list dv.name hfind b hb (by rw [← hcontra, hni])
        · exact h.imp (fun {a b} hab => by rw [hA a, hA b]; exact hab)

theorem namesOK_unregister (s : DevState) (i : Nat) (h : namesOK s) :
    namesOK (device_unregister s i).1 := by
  rw [device_unregister]
  split
  · exact h
  · rename_i dv hdv
    show namesOK (devfs_remove_node
      { s with
        device_list := eraseFirst s.device_list i
        device_count := if i ∈ s.device_list then s.device_count - 1
          else s.device_count } i)
    have hA : ∀ x, devName (devfs_remove_node
        { s with
          device_list := eraseFirst s.device_list i
          device_count := if i ∈ s.device_list then s.device_count - 1
            else s.device_count } i) x = devName s x := by
      intro x
      rw [devName_devfs_remove]
      rfl
    unfold namesOK
    rw [devlist_devfs_remove]
    show List.Pairwise _ (eraseFirst s.device_list i)
    have h2 : (eraseFirst s.device_list i).Pairwise
        (fun a b => devName s a ≠ devName s b) :=
      (h.sublist (eraseFirst_sublist s.device_list i))
    exact h2.imp (fun {a b} hab => by rw [hA a, hA b]; exact hab)

theorem register_refuses (s : DevState) (i : Nat) :
    (device_register s i).2 = 0 → ∀ b ∈ s.device_list, devName s b ≠ devName s i := by
  rw [device_register]
  split
  · intro h0
    exact absurd h0 (by simp)
  · rename_i dv hdv
    split
    · intro h0
      exact absurd h0 (by simp)
    · split
      · intro h0
        exact absurd h0 (by simp)
      · rename_i hfind
        intro _ b hb
        have hni : devName s i = some dv.name := by
          simp [devName, hdv]
        rw [hni]
        exact find_none_no_name s s.device_list dv.name hfind b hb

/-- The C8 scenario: two character devices with distinct names and the same
(major, minor) pair (4, 0). -/
def c8_twice :=
  device_register
    ((device_register
      (mkDevice (mkDevice device_init_state 100 ['t', 't', 'y', '0'] 1 4 0)
        101 ['t', 't', 'y', '1'] 1 4 0) 100).1) 101

end Devm
end NBOS

namespace NBOS

/-- C8 (counterexample to the literal claim): two distinct devices with
distinct names `tty0`, `tty1` but the SAME (major, minor) pair (4, 0) both
register successfully — `device_register` checks only the name — so two
devices with equal (major, minor) coexist in the registry, and
`device_find_by_number(4, 0)` can only return one of them. -/
theorem C8_registry_counterexample :
    Devm.c8_twice.2 = 0 ∧
    Devm.c8_twice.1.device_list = [101, 100] ∧
    (Devm.getDevice Devm.c8_twice.1 100).map (fun d => (d.major, d.minor)) = some (4, 0) ∧
    (Devm.getDevice Devm.c8_twice.1 101).map (fun d => (d.major, d.minor)) = some (4, 0) ∧
    (Devm.getDevice Devm.c8_twice.1 100).map (fun d => d.name) ≠
      (Devm.getDevice Devm.c8_twice.1 101).map (fun d => d.name) ∧
    Devm.device_find_by_number Devm.c8_twice.1 4 0 = some 101 :=
  ⟨rfl, rfl, rfl, rfl, by decide, rfl⟩

/-- C8 (amended): the registry keeps NAMES pairwise distinct — registration
refuses a duplicate name, so `device_register` and `device_unregister`
preserve the pairwise-distinct-names invariant, and a registration that
returns 0 had no registered device with the new device's name.  The
(major, minor) half of the claimed invariant is refuted by the
counterexample: the code never checks it. -/
theorem C8_registry_name_unique (s : Devm.DevState) (i : Nat)
    (hinv : Devm.namesOK s) :
    Devm.namesOK (Devm.device_register s i).1 ∧
    Devm.namesOK (Devm.device_unregister s i).1 ∧
    ((Devm.device_register s i).2 = 0 →
      ∀ b ∈ s.device_list, Devm.devName s b ≠ Devm.devName s i) :=
  ⟨Devm.namesOK_register s i hinv, Devm.namesOK_unregister s i hinv,
    Devm.register_refuses s i⟩

/-- Witness for C8 (amended) at the freshly initialised device manager and
device id 100: the empty registry trivially has distinct names, and the
theorem's conclusion instantiates to it. -/
theorem C8_registry_name_unique_witness :
    Devm.namesOK Devm.device_init_state ∧
    (Devm.namesOK (Devm.device_register Devm.device_init_state 100).1 ∧
     Devm.namesOK (Devm.device_unregister Devm.device_init_state 100).1 ∧
     ((Devm.device_register Devm.device_init_state 100).2 = 0 →
       ∀ b ∈ Devm.device_init_state.device_list,
         Devm.devName Devm.device_init_state b ≠
           Devm.devName Devm.device_init_state 100)) :=
  ⟨List.Pairwise.nil, C8_registry_name_unique Devm.device_init_state 100 List.Pairwise.nil⟩

end NBOS
